import Mathlib

/-!
Shallow embedding of `src/bibip_car_service.py` (class `CarService`), a
fixed-width flat-file storage engine for models, cars and sales.

Modelling conventions:
- Python `str` is modelled as `List Char` (`Str`); byte offsets coincide with
  character offsets (the data the service writes is ASCII).
- A data file is the flat character sequence of its contents; `writeRecord`
  and `readRecord` mirror `seek`-based positional I/O exactly.
- An index file is modelled as the list of `(key, position)` entries in file
  order (exactly the lines `_save_index` writes, in order); `_load_index`
  re-sorts on load, which is mirrored by `loadIndex`.
- Python's `list.sort(key=lambda x: x[0])` is a stable sort by key; any stable
  sort computes the same permutation, so it is modelled with a stable insertion
  sort under the Python string order (lexicographic by code point).
- Python exceptions (`ValueError` with distinct messages) are modelled as an
  `Err` inductive; operations that mutate files before possibly raising return
  `State × Except Err α` so that the mutated state is observable on failure,
  matching Python where writes persist when a later statement raises.
-/

namespace Bibip

/-- Python `str` as a list of characters. -/
abbrev Str := List Char

/-- Convert a Lean string literal to the `Str` model. -/
def lit (s : String) : Str := s.data

/-- The characters Python's `str.strip()` family removes (ASCII whitespace). -/
def isPySpace (c : Char) : Bool :=
  c = ' ' || c = '\t' || c = '\n' || c = '\r' || c = '\x0b' || c = '\x0c'

/-- Python `s.rstrip()`: drop trailing whitespace. -/
def rstrip (s : Str) : Str := (s.reverse.dropWhile isPySpace).reverse

/-- Python `s.lstrip()`: drop leading whitespace. -/
def lstrip (s : Str) : Str := s.dropWhile isPySpace

/-- Python `s.strip()`: drop whitespace on both sides. -/
def pstrip (s : Str) : Str := lstrip (rstrip s)

/-- Python `s.ljust(w)`: right-pad with spaces to width `w`
(returns `s` unchanged when `s` is already at least `w` long). -/
def ljust (s : Str) (w : Nat) : Str := s ++ List.replicate (w - s.length) ' '

/-- Python `s.split(sep, maxsplit)`: split on `sep` at most `maxsplit` times. -/
def splitN (sep : Char) : Nat → Str → List Str
  | _, [] => [[]]
  | 0, s => [s]
  | Nat.succ n, c :: rest =>
    if c = sep then [] :: splitN sep n rest
    else
      match splitN sep (Nat.succ n) rest with
      | [] => [[c]]
      | f :: fs => (c :: f) :: fs

/-- Python `'|'.join(fields)`. -/
def joinBar (fields : List Str) : Str := List.intercalate [ '|' ] fields

/-- `CarService.RECORD_SIZE`. -/
def RECORD_SIZE : Nat := 500

/-- `CarService.RECORD_SIZE_WITH_NL`. -/
def RECORD_SIZE_WITH_NL : Nat := 501

/-- `CarService._format_record`: `data.ljust(500) + '\n'`.
Note: the source performs no length check whatsoever. -/
def formatRecord (data : Str) : Str := ljust data RECORD_SIZE ++ [ '\n' ]

/-- `CarService._write_record`: open `r+`, seek to `position * 501`, write
`record` in place. A seek past end-of-file followed by a write fills the gap
with NUL characters (never reached by the service's own call sites). -/
def writeRecord (file : Str) (position : Nat) (record : Str) : Str :=
  file.take (position * RECORD_SIZE_WITH_NL) ++
    List.replicate (position * RECORD_SIZE_WITH_NL - file.length) (Char.ofNat 0) ++
    record ++ file.drop (position * RECORD_SIZE_WITH_NL + record.length)

/-- `CarService._read_record`: seek to `position * 501`, read up to 500
characters, `rstrip` the result. -/
def readRecord (file : Str) (position : Nat) : Str :=
  rstrip ((file.drop (position * RECORD_SIZE_WITH_NL)).take RECORD_SIZE)

/-- `CarService._find_free_position`: `os.path.getsize(file) // 501`
(floor division; the source never checks divisibility). -/
def findFreePosition (file : Str) : Nat := file.length / RECORD_SIZE_WITH_NL

/-- Python's `<=` on strings: lexicographic by code point. -/
def strLe : Str → Str → Bool
  | [], _ => true
  | _ :: _, [] => false
  | a :: as, b :: bs => if a < b then true else if a = b then strLe as bs else false

/-- One `key:position` line of an index file. -/
abbrev IndexEntry := Str × Nat

/-- Comparison used by every `index.sort(key=lambda x: x[0])` /
`sorted(index, key=lambda x: x[0])` in the source: by key only. -/
def keyLe (a b : IndexEntry) : Bool := strLe a.1 b.1

/-- Python's stable sort of index entries by key. -/
def sortIndex (l : List IndexEntry) : List IndexEntry :=
  l.insertionSort (fun a b => keyLe a b = true)

/-- `CarService._load_index`: read the entry lines of the index file and
return them sorted ascending by key (stable). The file itself is modelled as
its entry list in file order. -/
def loadIndex (indexFile : List IndexEntry) : List IndexEntry := sortIndex indexFile

/-- Modelled from the spec: `CarStatus` enum from `models.py`
(not under `src/`); values `available`, `sold`, `reserved`. -/
inductive CarStatus
  | available
  | sold
  | reserved
deriving DecidableEq, Repr

/-- Modelled from the spec: the serialized `.value` string of a `CarStatus`. -/
def CarStatus.value : CarStatus → Str
  | .available => lit "available"
  | .sold => lit "sold"
  | .reserved => lit "reserved"

/-- Inverse of `CarStatus.value`, mirroring pydantic enum validation. -/
def parseStatus (s : Str) : Option CarStatus :=
  if s = lit "available" then some .available
  else if s = lit "sold" then some .sold
  else if s = lit "reserved" then some .reserved
  else none

/-- Modelled from the spec: `Car` entity from `models.py` (not under `src/`).
`price` holds `str(Decimal)`, `dateStart` the ISO date string; the core treats
both as opaque strings. -/
structure Car where
  vin : Str
  model : Str
  price : Str
  dateStart : Str
  status : CarStatus
deriving DecidableEq, Repr

/-- Modelled from the spec: `Sale` entity from `models.py` (not under `src/`). -/
structure Sale where
  salesNumber : Str
  carVin : Str
  cost : Str
  salesDate : Str
deriving DecidableEq, Repr

/-- Modelled from the spec: `Model` entity from `models.py` (not under `src/`). -/
structure Model where
  id : Str
  name : Str
  brand : Str
deriving DecidableEq, Repr

/-- Modelled from the spec: `ModelSaleStats` read-model from `models.py`. -/
structure ModelSaleStats where
  carModelName : Str
  brand : Str
  salesNumber : Nat
deriving DecidableEq, Repr

/-- The six files of a `CarService` root directory. Data files are flat
character sequences, index files are entry lists in file order. -/
structure CarService where
  modelsFile : Str
  modelsIndexFile : List IndexEntry
  carsFile : Str
  carsIndexFile : List IndexEntry
  salesFile : Str
  salesIndexFile : List IndexEntry
deriving DecidableEq, Repr

/-- `CarService.__init__` + `_init_files` on a fresh directory: six empty files. -/
def initialService : CarService := ⟨[], [], [], [], [], []⟩

/-- Python exceptions raised by the service, distinguished as in the source by
their `ValueError` message (`"Car {vin} not found"`, `"Sale {n} not found"`,
`"Invalid sale format"`, `"Sale {n} already deleted"`); an out-of-range
`fields[i]` in `_get_car_by_vin` (IndexError) / failed enum validation is
`malformedCar`. -/
inductive Err
  | carNotFound (vin : Str)
  | saleNotFound (salesNumber : Str)
  | invalidSaleFormat
  | alreadyDeleted (salesNumber : Str)
  | malformedCar
deriving DecidableEq, Repr

/-- The f-string payload of `add_car`:
`f"{car.vin}|{car.model}|{car.price}|{car.date_start.isoformat()}|{car.status.value}"`. -/
def carToStr (car : Car) : Str :=
  joinBar [car.vin, car.model, car.price, car.dateStart, car.status.value]

/-- The f-string payload of `add_model`: `f"{model.id}|{model.name}|{model.brand}"`. -/
def modelToStr (model : Model) : Str := joinBar [model.id, model.name, model.brand]

/-- The f-string payload of `sell_car`:
`f"{sale.sales_number}|{sale.car_vin}|{sale.cost}|{sale.sales_date.isoformat()}|False"`. -/
def saleToStr (sale : Sale) : Str :=
  joinBar [sale.salesNumber, sale.carVin, sale.cost, sale.salesDate, lit "False"]

/-- `CarService.add_model`. -/
def addModel (s : CarService) (model : Model) : CarService :=
  let formatted := formatRecord (modelToStr model)
  let position := findFreePosition s.modelsFile
  let modelsFile := writeRecord s.modelsFile position formatted
  let index := sortIndex (loadIndex s.modelsIndexFile ++ [(model.id, position)])
  { s with modelsFile := modelsFile, modelsIndexFile := index }

/-- `CarService.add_car`. -/
def addCar (s : CarService) (car : Car) : CarService :=
  let formatted := formatRecord (carToStr car)
  let position := findFreePosition s.carsFile
  let carsFile := writeRecord s.carsFile position formatted
  let index := sortIndex (loadIndex s.carsIndexFile ++ [(car.vin, position)])
  { s with carsFile := carsFile, carsIndexFile := index }

/-- `CarService._find_car_by_vin`: linear scan of the loaded (sorted) cars
index for the first entry with this vin, then a record read. -/
def findCarByVin (s : CarService) (vin : Str) : Option Str :=
  ((loadIndex s.carsIndexFile).find? (fun e => decide (e.1 = vin))).map
    (fun e => readRecord s.carsFile e.2)

/-- `CarService._find_model_by_id`. -/
def findModelById (s : CarService) (modelId : Str) : Option Str :=
  ((loadIndex s.modelsIndexFile).find? (fun e => decide (e.1 = modelId))).map
    (fun e => readRecord s.modelsFile e.2)

/-- The `Car.model_validate({...})` call shared by `get_cars` and
`_get_car_by_vin`: build a `Car` from the five stripped fields. Python raises
(IndexError / ValidationError) when fewer than five fields are present or the
status is not a valid enum value; that is `none` here. -/
def carOfFields (fields : List Str) : Option Car :=
  match fields with
  | [v, m, p, d, st] =>
    match parseStatus (pstrip st) with
    | some status => some ⟨pstrip v, pstrip m, pstrip p, pstrip d, status⟩
    | none => none
  | _ => none

/-- `CarService._get_car_by_vin`: raises `"Car {vin} not found"` when the index
lookup fails, otherwise validates the record's fields. -/
def getCarByVin (s : CarService) (vin : Str) : Except Err Car :=
  match findCarByVin s vin with
  | none => .error (.carNotFound vin)
  | some data =>
    match carOfFields (splitN '|' 4 data) with
    | some car => .ok car
    | none => .error .malformedCar

/-- `CarService._update_car_status`: first index match for `vin`; if the
record there splits into 5 fields, rewrite it at the same position with field 4
replaced by `status`; silently do nothing otherwise. -/
def updateCarStatus (s : CarService) (vin : Str) (status : Str) : CarService :=
  match (loadIndex s.carsIndexFile).find? (fun e => decide (e.1 = vin)) with
  | none => s
  | some e =>
    let fields := splitN '|' 4 (readRecord s.carsFile e.2)
    if fields.length = 5 then
      { s with
        carsFile := writeRecord s.carsFile e.2 (formatRecord (joinBar (fields.set 4 status))) }
    else s

/-- `CarService.sell_car`: append the sale record (deleted field literally
`"False"`), insert its index entry, set the car's status to `sold`, and return
the car looked up by vin (which raises when the vin is not indexed — after the
sale has already been persisted). -/
def sellCar (s : CarService) (sale : Sale) : CarService × Except Err Car :=
  let formatted := formatRecord (saleToStr sale)
  let position := findFreePosition s.salesFile
  let s1 := { s with salesFile := writeRecord s.salesFile position formatted }
  let index := sortIndex (loadIndex s1.salesIndexFile ++ [(sale.salesNumber, position)])
  let s2 := { s1 with salesIndexFile := index }
  let s3 := updateCarStatus s2 sale.carVin CarStatus.sold.value
  (s3, getCarByVin s3 sale.carVin)

/-- `CarService.revert_sale`: find the sale's first index entry (else
`"Sale ... not found"`); require 5 fields (else `"Invalid sale format"`);
require the deleted field not already `"True"` (else
`"Sale ... already deleted"`); flip it to `"True"`, write back at the same
position, set the car's status to `available`, return the car by vin. -/
def revertSale (s : CarService) (salesNumber : Str) : CarService × Except Err Car :=
  match (loadIndex s.salesIndexFile).find? (fun e => decide (e.1 = salesNumber)) with
  | none => (s, .error (.saleNotFound salesNumber))
  | some e =>
    let fields := splitN '|' 4 (readRecord s.salesFile e.2)
    if fields.length = 5 then
      if pstrip (fields.getD 4 []) = lit "True" then
        (s, .error (.alreadyDeleted salesNumber))
      else
        let fields1 := fields.set 4 (lit "True")
        let s1 := { s with
          salesFile := writeRecord s.salesFile e.2 (formatRecord (joinBar fields1)) }
        let carVin := pstrip (fields1.getD 1 [])
        let s2 := updateCarStatus s1 carVin CarStatus.available.value
        (s2, getCarByVin s2 carVin)
    else (s, .error .invalidSaleFormat)

/-- `CarService.update_vin`: find the first index entry for `vin` (else
`"Car {vin} not found"`); if the record there has 5 fields, rewrite it at the
same position with field 0 replaced by `new_vin`; replace that index entry by
`(new_vin, position)`, re-sort, save; return the car looked up by `new_vin`. -/
def updateVin (s : CarService) (vin newVin : Str) : CarService × Except Err Car :=
  let carsIndex := loadIndex s.carsIndexFile
  match carsIndex.findIdx? (fun e => decide (e.1 = vin)) with
  | none => (s, .error (.carNotFound vin))
  | some i =>
    let position := (carsIndex.getD i ([], 0)).2
    let fields := splitN '|' 4 (readRecord s.carsFile position)
    let s1 :=
      if fields.length = 5 then
        { s with
          carsFile := writeRecord s.carsFile position (formatRecord (joinBar (fields.set 0 newVin))) }
      else s
    let s2 := { s1 with carsIndexFile := sortIndex (carsIndex.set i (newVin, position)) }
    (s2, getCarByVin s2 newVin)

/-- `CarService.get_cars`: full sequential scan of every slot of the cars
file, keeping non-blank records with 5 fields whose stripped status field
equals `status.value`, validated in physical order. -/
def getCars (s : CarService) (status : CarStatus) : List Car :=
  if s.carsFile.length = 0 then []
  else
    (List.range (s.carsFile.length / RECORD_SIZE_WITH_NL)).filterMap (fun pos =>
      let record := readRecord s.carsFile pos
      if pstrip record ≠ [] then
        let fields := splitN '|' 4 record
        if fields.length = 5 ∧ pstrip (fields.getD 4 []) = status.value then
          carOfFields fields
        else none
      else none)

/-- `defaultdict(int)` increment: bump the counter for `k`, appending a fresh
`(k, 1)` at first occurrence (Python dict iteration order = insertion order). -/
def bump (counts : List (Str × Nat)) (k : Str) : List (Str × Nat) :=
  match counts with
  | [] => [(k, 1)]
  | (k', n) :: rest => if k' = k then (k', n + 1) :: rest else (k', n) :: bump rest k

/-- Python dict assignment `d[k] = v`: overwrite in place or append. -/
def dictInsert (d : List (Str × α)) (k : Str) (v : α) : List (Str × α) :=
  match d with
  | [] => [(k, v)]
  | (k', v') :: rest => if k' = k then (k', v) :: rest else (k', v') :: dictInsert rest k v

/-- Python dict membership/lookup. -/
def dictLookup (d : List (Str × α)) (k : Str) : Option α :=
  (d.find? (fun e => decide (e.1 = k))).map (·.2)

/-- The per-slot body of the sales scan in `top_models_by_sales`: skip blank
records, keep 5-field records with deleted = `"False"`, resolve the car by
vin, and bump the counter of its model id. -/
def saleScanStep (s : CarService) (counts : List (Str × Nat)) (pos : Nat) :
    List (Str × Nat) :=
  let record := readRecord s.salesFile pos
  if pstrip record = [] then counts
  else
    let fields := splitN '|' 4 record
    if fields.length = 5 ∧ pstrip (fields.getD 4 []) = lit "False" then
      match findCarByVin s (pstrip (fields.getD 1 [])) with
      | some carData =>
        let cf := splitN '|' 4 carData
        if cf.length = 5 then bump counts (pstrip (cf.getD 1 [])) else counts
      | none => counts
    else counts

/-- The `models_data` dict of `top_models_by_sales`: for every loaded models
index entry, read the record and map model id to `(name, brand)` when it has 3
fields and is non-blank. -/
def modelsData (s : CarService) : List (Str × (Str × Str)) :=
  (loadIndex s.modelsIndexFile).foldl (fun acc e =>
    let record := readRecord s.modelsFile e.2
    if pstrip record ≠ [] then
      let mf := splitN '|' 2 record
      if mf.length = 3 then dictInsert acc e.1 (pstrip (mf.getD 1 []), pstrip (mf.getD 2 []))
      else acc
    else acc) []

/-- `sorted(..., key=lambda x: x[1], reverse=True)`: stable descending
comparison on counts. -/
def countDescLe (a b : Str × Nat) : Bool := decide (b.2 ≤ a.2)

/-- `CarService.top_models_by_sales`: scan every sale slot counting active
sales per resolved model id, sort counts descending (stable), take 3, and
resolve each surviving model id through the models data, silently dropping
unresolved ids. -/
def topModelsBySales (s : CarService) : List ModelSaleStats :=
  if s.salesFile.length = 0 then []
  else
    let modelSales :=
      (List.range (s.salesFile.length / RECORD_SIZE_WITH_NL)).foldl (saleScanStep s) []
    let md := modelsData s
    let sortedModels := (modelSales.insertionSort (fun a b => countDescLe a b = true)).take 3
    sortedModels.foldl (fun res e =>
      match dictLookup md e.1 with
      | some nb => res ++ [⟨nb.1, nb.2, e.2⟩]
      | none => res) []

/-! ### Derived notions used to state the claims -/

/-- A data file whose content is exactly the given record payloads, each
occupying one 501-character slot (the state every write path of the service
maintains). -/
def encodeFile (slots : List Str) : Str := (slots.map formatRecord).flatten

/-- Every payload fits its slot. -/
def SlotsOk (slots : List Str) : Prop := ∀ p ∈ slots, p.length ≤ RECORD_SIZE

instance (slots : List Str) : Decidable (SlotsOk slots) :=
  inferInstanceAs (Decidable (∀ p ∈ slots, p.length ≤ RECORD_SIZE))

/-- A field value that survives the service's own re-reading: it contains no
field separator and no leading/trailing whitespace (so `strip`/`rstrip` leave
it unchanged). -/
def FieldOk (f : Str) : Prop := '|' ∉ f ∧ rstrip f = f ∧ lstrip f = f

instance (f : Str) : Decidable (FieldOk f) :=
  inferInstanceAs (Decidable (_ ∧ _ ∧ _))

/-- A car whose serialized form round-trips: clean fields, and enough slack
that the payload fits a slot under any of the three status values
(4 separators + at most 9 characters of status). -/
def CarOk (car : Car) : Prop :=
  FieldOk car.vin ∧ FieldOk car.model ∧ FieldOk car.price ∧ FieldOk car.dateStart ∧
    car.vin.length + car.model.length + car.price.length + car.dateStart.length + 13 ≤
      RECORD_SIZE

instance (car : Car) : Decidable (CarOk car) :=
  inferInstanceAs (Decidable (_ ∧ _ ∧ _ ∧ _ ∧ _))

/-- A sale whose serialized form round-trips: clean fields, and enough slack
that the payload fits a slot with deleted field `"False"` or `"True"`
(4 separators + at most 5 characters of flag). -/
def SaleOk (sale : Sale) : Prop :=
  FieldOk sale.salesNumber ∧ FieldOk sale.carVin ∧ FieldOk sale.cost ∧
    FieldOk sale.salesDate ∧
    sale.salesNumber.length + sale.carVin.length + sale.cost.length +
      sale.salesDate.length + 9 ≤ RECORD_SIZE

instance (sale : Sale) : Decidable (SaleOk sale) :=
  inferInstanceAs (Decidable (_ ∧ _ ∧ _ ∧ _ ∧ _))

/-- An operation of the cars repository that rewrites the cars index:
`add_car` or `update_vin`. -/
inductive CarOp
  | add (car : Car)
  | rename (vin newVin : Str)
deriving DecidableEq, Repr

/-- Run one cars-repository operation (the state effect only). -/
def applyCarOp (s : CarService) : CarOp → CarService
  | .add car => addCar s car
  | .rename vin newVin => (updateVin s vin newVin).1

/-- Run a sequence of cars-repository operations. -/
def applyCarOps (s : CarService) (ops : List CarOp) : CarService :=
  ops.foldl applyCarOp s

/-- Well-formedness of one operation against the state it runs in: an added
car's payload fits a slot, and a rename whose target record has 5 fields
produces a payload that fits a slot. -/
def carOpOk (s : CarService) : CarOp → Prop
  | .add car => (carToStr car).length ≤ RECORD_SIZE
  | .rename vin newVin =>
    ∀ e ∈ loadIndex s.carsIndexFile, e.1 = vin →
      (splitN '|' 4 (readRecord s.carsFile e.2)).length = 5 →
      (joinBar ((splitN '|' 4 (readRecord s.carsFile e.2)).set 0 newVin)).length ≤
        RECORD_SIZE

instance (s : CarService) (op : CarOp) : Decidable (carOpOk s op) :=
  match op with
  | .add _ => inferInstanceAs (Decidable (_ ≤ _))
  | .rename _ _ => inferInstanceAs (Decidable (∀ _ ∈ _, _))

/-- Well-formedness of a whole operation sequence, each op against the state
it actually runs in. -/
def carOpsOk : CarService → List CarOp → Prop
  | _, [] => True
  | s, op :: rest => carOpOk s op ∧ carOpsOk (applyCarOp s op) rest

instance instDecCarOpsOk (s : CarService) (ops : List CarOp) :
    Decidable (carOpsOk s ops) :=
  match ops with
  | [] => .isTrue trivial
  | op :: rest =>
    have : Decidable (carOpsOk (applyCarOp s op) rest) := instDecCarOpsOk _ rest
    inferInstanceAs (Decidable (_ ∧ _))

/-- Index entries sorted ascending by key (Python string order, non-strict,
as produced by `list.sort(key=lambda x: x[0])`). -/
def IndexSorted (idx : List IndexEntry) : Prop :=
  idx.Pairwise (fun a b => keyLe a b = true)

/-- The cars-repository storage invariant: the data file is slot-structured,
and the persisted index file is sorted by key with exactly one entry per
occupied slot (its positions are a permutation of `0..slotCount-1`). -/
def CarsRepoInv (s : CarService) : Prop :=
  (∃ slots, s.carsFile = encodeFile slots ∧ SlotsOk slots) ∧
    IndexSorted s.carsIndexFile ∧
    (s.carsIndexFile.map Prod.snd).Perm (List.range (findFreePosition s.carsFile))

/-- The model id (if any) that sale slot `pos` contributes one count to in
`top_models_by_sales`: the slot must be non-blank, have 5 fields with deleted
= `"False"`, and its car vin must resolve through the cars index to a 5-field
car record. -/
def saleResolvedModel (s : CarService) (pos : Nat) : Option Str :=
  let record := readRecord s.salesFile pos
  if pstrip record = [] then none
  else
    let fields := splitN '|' 4 record
    if fields.length = 5 ∧ pstrip (fields.getD 4 []) = lit "False" then
      match findCarByVin s (pstrip (fields.getD 1 [])) with
      | some carData =>
        let cf := splitN '|' 4 carData
        if cf.length = 5 then some (pstrip (cf.getD 1 [])) else none
      | none => none
    else none

/-- The count a counter list assigns to a model id (0 when absent, as for
`defaultdict(int)`). -/
def countOf (counts : List (Str × Nat)) (m : Str) : Nat :=
  (dictLookup counts m).getD 0

/-- Concrete scenario for the aggregation claim: five recorded sales - three
active sales of cars of model M1, one of a car of model M2, and one reverted
sale (deleted = `"True"`) of a car of model M1. -/
def scenarioSaleSlots : List Str :=
  [lit "S1|V1|90|2024-02-01|False", lit "S2|V2|90|2024-02-02|False",
   lit "S3|V3|90|2024-02-03|False", lit "S4|V4|90|2024-02-04|False",
   lit "S5|V5|90|2024-02-05|True"]

/-- The five cars of the scenario: V1-V3 of model M1 sold, V4 of model M2
sold, V5 of model M1 with its sale reverted. -/
def scenarioCarSlots : List Str :=
  [lit "V1|M1|100|2024-01-01|sold", lit "V2|M1|100|2024-01-02|sold",
   lit "V3|M1|100|2024-01-03|sold", lit "V4|M2|100|2024-01-04|sold",
   lit "V5|M1|100|2024-01-05|available"]

/-- The two models of the scenario. -/
def scenarioModelSlots : List Str :=
  [lit "M1|ModelA|BrandA", lit "M2|ModelB|BrandB"]

/-- The scenario service state: slot-structured data files with their
key-sorted index files. -/
def scenarioService : CarService where
  modelsFile := encodeFile scenarioModelSlots
  modelsIndexFile := [(lit "M1", 0), (lit "M2", 1)]
  carsFile := encodeFile scenarioCarSlots
  carsIndexFile := [(lit "V1", 0), (lit "V2", 1), (lit "V3", 2), (lit "V4", 3), (lit "V5", 4)]
  salesFile := encodeFile scenarioSaleSlots
  salesIndexFile := [(lit "S1", 0), (lit "S2", 1), (lit "S3", 2), (lit "S4", 3), (lit "S5", 4)]

/-! ### Order properties of the Python string comparison -/

theorem strLe_refl : ∀ a : Str, strLe a a = true
  | [] => rfl
  | c :: rest => by simp [strLe, strLe_refl rest]

theorem strLe_total : ∀ a b : Str, (strLe a b || strLe b a) = true
  | [], _ => by simp [strLe]
  | _ :: _, [] => by simp [strLe]
  | a :: as, b :: bs => by
    by_cases hab : a < b
    · simp [strLe, hab]
    · by_cases heq : a = b
      · subst heq
        simpa [strLe, lt_irrefl] using strLe_total as bs
      · have hba : b < a := lt_of_le_of_ne (not_lt.mp hab) (Ne.symm heq)
        simp [strLe, hba]

theorem strLe_trans : ∀ a b c : Str, strLe a b = true → strLe b c = true → strLe a c = true
  | [], _, _, _, _ => rfl
  | _ :: _, [], _, hab, _ => by simp [strLe] at hab
  | _ :: _, _ :: _, [], _, hbc => by simp [strLe] at hbc
  | x :: xs, y :: ys, z :: zs, hab, hbc => by
    by_cases hxy : x < y
    · by_cases hyz : y < z
      · simp [strLe, lt_trans hxy hyz]
      · by_cases hyz2 : y = z
        · subst hyz2; simp [strLe, hxy]
        · simp [strLe, hyz, hyz2] at hbc
    · by_cases hxy2 : x = y
      · subst hxy2
        by_cases hyz : x < z
        · simp [strLe, hyz]
        · by_cases hyz2 : x = z
          · subst hyz2
            simp only [strLe, lt_irrefl, if_false, if_pos rfl] at hab hbc ⊢
            exact strLe_trans xs ys zs hab hbc
          · simp [strLe, hyz, hyz2] at hbc
      · simp [strLe, hxy, hxy2] at hab

theorem keyLe_refl (a : IndexEntry) : keyLe a a = true := strLe_refl a.1

theorem keyLe_total (a b : IndexEntry) : (keyLe a b || keyLe b a) = true :=
  strLe_total a.1 b.1

theorem keyLe_trans (a b c : IndexEntry) :
    keyLe a b = true → keyLe b c = true → keyLe a c = true :=
  strLe_trans a.1 b.1 c.1

theorem countDescLe_total (a b : Str × Nat) : (countDescLe a b || countDescLe b a) = true := by
  simp [countDescLe]; omega

theorem countDescLe_trans (a b c : Str × Nat) :
    countDescLe a b = true → countDescLe b c = true → countDescLe a c = true := by
  simp [countDescLe]; omega

/-! ### First-match lookups through the stable sort -/

theorem find?_eq_head?_filter (p : α → Bool) (l : List α) :
    l.find? p = (l.filter p).head? := by
  induction l with
  | nil => rfl
  | cons a t ih =>
    by_cases h : p a
    · rw [List.find?_cons_of_pos _ h, List.filter_cons_of_pos h, List.head?_cons]
    · rw [List.find?_cons_of_neg _ h, List.filter_cons_of_neg h, ih]

/-- Stability of the index sort restricted to one key: sorting never reorders
the entries of a single key, so filtering a key out of the sorted index gives
the same list as filtering it out of the raw entry list. -/
theorem filter_key_sortIndex (l : List IndexEntry) (v : Str) :
    (sortIndex l).filter (fun e => decide (e.1 = v)) =
      l.filter (fun e => decide (e.1 = v)) := by
  have hmemc : ∀ a ∈ l.filter (fun e => decide (e.1 = v)), a.1 = v := by
    intro a ha
    simpa using List.of_mem_filter ha
  have hc : (l.filter (fun e => decide (e.1 = v))).Pairwise (fun a b => keyLe a b = true) := by
    refine List.pairwise_of_forall_mem_list ?_
    intro a ha b hb
    simp only [keyLe, hmemc a ha, hmemc b hb]
    exact strLe_refl v
  have hsub : List.Sublist (l.filter (fun e => decide (e.1 = v))) (sortIndex l) :=
    List.sublist_insertionSort hc (List.filter_sublist l)
  have hself : (l.filter (fun e => decide (e.1 = v))).filter (fun e => decide (e.1 = v)) =
      l.filter (fun e => decide (e.1 = v)) :=
    List.filter_eq_self.mpr (fun a ha => by simp [hmemc a ha])
  have hsub2 : List.Sublist (l.filter (fun e => decide (e.1 = v)))
      ((sortIndex l).filter (fun e => decide (e.1 = v))) := by
    have := hsub.filter (fun e => decide (e.1 = v))
    rwa [hself] at this
  have hlen : ((sortIndex l).filter (fun e => decide (e.1 = v))).length =
      (l.filter (fun e => decide (e.1 = v))).length :=
    ((List.perm_insertionSort _ l).filter _).length_eq
  exact (hsub2.eq_of_length hlen.symm).symm

/-- First-match lookup on the loaded (sorted) index equals first-match lookup
on the raw entry list. -/
theorem find?_key_loadIndex (l : List IndexEntry) (v : Str) :
    (loadIndex l).find? (fun e => decide (e.1 = v)) =
      l.find? (fun e => decide (e.1 = v)) := by
  rw [find?_eq_head?_filter, find?_eq_head?_filter]
  exact congrArg List.head? (filter_key_sortIndex l v)

theorem findIdx?_spec (l : List α) (p : α → Bool) (i : Nat) (d : α)
    (h : l.findIdx? p = some i) :
    i < l.length ∧ l.find? p = some (l.getD i d) := by
  induction l generalizing i with
  | nil => simp [List.findIdx?] at h
  | cons a t ih =>
    rw [List.findIdx?_cons] at h
    by_cases hp : p a
    · rw [if_pos hp] at h
      cases h
      exact ⟨Nat.succ_pos _, by simp [hp]⟩
    · rw [if_neg hp, List.findIdx?_succ] at h
      cases hj : t.findIdx? p with
      | none => rw [hj] at h; simp at h
      | some j =>
        rw [hj] at h
        simp at h
        subst h
        obtain ⟨hlt, hfind⟩ := ih _ hj
        refine ⟨Nat.succ_lt_succ hlt, ?_⟩
        rw [List.find?_cons_of_neg _ hp, List.getD_cons_succ]
        exact hfind

theorem find?_findIdx? (l : List α) (p : α → Bool) (a : α)
    (h : l.find? p = some a) : ∃ i, l.findIdx? p = some i := by
  induction l with
  | nil => simp at h
  | cons x t ih =>
    by_cases hp : p x
    · exact ⟨0, by simp [List.findIdx?_cons, hp]⟩
    · rw [List.find?_cons_of_neg _ hp] at h
      obtain ⟨i, hi⟩ := ih h
      exact ⟨i + 1, by simp [List.findIdx?_cons, hp, List.findIdx?_succ, hi]⟩

/-! ### Strip, pad, split, join -/

theorem dropWhile_replicate_space (k : Nat) (x : Str) :
    List.dropWhile isPySpace (List.replicate k ' ' ++ x) = List.dropWhile isPySpace x := by
  induction k with
  | zero => rfl
  | succ n ih =>
    rw [List.replicate_succ, List.cons_append, List.dropWhile_cons,
      if_pos (show isPySpace ' ' = true from rfl)]
    exact ih

theorem rstrip_append_replicate_space (s : Str) (k : Nat) :
    rstrip (s ++ List.replicate k ' ') = rstrip s := by
  simp only [rstrip, List.reverse_append, List.reverse_replicate]
  rw [dropWhile_replicate_space]

theorem rstrip_ljust (s : Str) (w : Nat) : rstrip (ljust s w) = rstrip s :=
  rstrip_append_replicate_space s _

theorem rstrip_append_right (x y : Str) (hy : rstrip y = y) (hne : y ≠ []) :
    rstrip (x ++ y) = x ++ y := by
  have hy' : List.dropWhile isPySpace y.reverse = y.reverse := by
    have := congrArg List.reverse hy
    simpa [rstrip] using this
  cases hyr : y.reverse with
  | nil => exact absurd (List.reverse_eq_nil_iff.mp hyr) hne
  | cons c t =>
    have hcs : isPySpace c = false := by
      rw [hyr] at hy'
      have := List.dropWhile_eq_self_iff.mp hy' (Nat.succ_pos _)
      simpa using this
    have : rstrip (x ++ y) = (List.dropWhile isPySpace (y.reverse ++ x.reverse)).reverse := by
      simp [rstrip, List.reverse_append]
    rw [this, hyr, List.cons_append, List.dropWhile_cons, if_neg (by simp [hcs]),
      ← List.cons_append, ← hyr, ← List.reverse_append]
    simp

theorem splitN_zero (sep : Char) (s : Str) : splitN sep 0 s = [s] := by
  cases s <;> rfl

theorem splitN_not_mem (sep : Char) (n : Nat) (s : Str) (h : sep ∉ s) :
    splitN sep n s = [s] := by
  induction s generalizing n with
  | nil => cases n <;> rfl
  | cons c rest ih =>
    cases n with
    | zero => rfl
    | succ m =>
      have hc : ¬(c = sep) := fun hcc => h (by simp [hcc])
      rw [splitN, if_neg hc, ih (m + 1) (fun hm => h (List.mem_cons_of_mem _ hm))]

theorem splitN_append (sep : Char) (a : Str) (h : sep ∉ a) (n : Nat) (rest : Str) :
    splitN sep (n + 1) (a ++ sep :: rest) = a :: splitN sep n rest := by
  induction a with
  | nil => simp [splitN]
  | cons c t ih =>
    have hc : ¬(c = sep) := fun hcc => h (by simp [hcc])
    rw [List.cons_append, splitN, if_neg hc,
      ih (fun hm => h (List.mem_cons_of_mem _ hm))]

theorem joinBar_cons₂ (a b : Str) (rest : List Str) :
    joinBar (a :: b :: rest) = a ++ '|' :: joinBar (b :: rest) := by
  simp [joinBar, List.intercalate]

theorem splitN_joinBar₅ (f0 f1 f2 f3 f4 : Str)
    (h0 : '|' ∉ f0) (h1 : '|' ∉ f1) (h2 : '|' ∉ f2) (h3 : '|' ∉ f3) :
    splitN '|' 4 (joinBar [f0, f1, f2, f3, f4]) = [f0, f1, f2, f3, f4] := by
  rw [joinBar_cons₂, splitN_append _ _ h0, joinBar_cons₂, splitN_append _ _ h1,
    joinBar_cons₂, splitN_append _ _ h2, joinBar_cons₂, splitN_append _ _ h3,
    splitN_zero]
  simp [joinBar, List.intercalate]

theorem length_joinBar₅ (f0 f1 f2 f3 f4 : Str) :
    (joinBar [f0, f1, f2, f3, f4]).length =
      f0.length + f1.length + f2.length + f3.length + f4.length + 4 := by
  rw [joinBar_cons₂, joinBar_cons₂, joinBar_cons₂, joinBar_cons₂]
  simp [joinBar, List.intercalate]
  omega

/-! ### Record store over slot-structured files -/

theorem length_ljust (s : Str) (w : Nat) : (ljust s w).length = max s.length w := by
  simp [ljust]
  omega

theorem length_formatRecord {data : Str} (h : data.length ≤ RECORD_SIZE) :
    (formatRecord data).length = RECORD_SIZE_WITH_NL := by
  simp [formatRecord, length_ljust, RECORD_SIZE, RECORD_SIZE_WITH_NL] at h ⊢
  omega

theorem encodeFile_cons (p : Str) (slots : List Str) :
    encodeFile (p :: slots) = formatRecord p ++ encodeFile slots := by
  simp [encodeFile]

theorem encodeFile_append (a b : List Str) :
    encodeFile (a ++ b) = encodeFile a ++ encodeFile b := by
  simp [encodeFile]

theorem length_encodeFile (slots : List Str) (h : SlotsOk slots) :
    (encodeFile slots).length = RECORD_SIZE_WITH_NL * slots.length := by
  induction slots with
  | nil => rfl
  | cons p rest ih =>
    rw [encodeFile_cons, List.length_append,
      length_formatRecord (h p (List.mem_cons_self _ _)),
      ih (fun q hq => h q (List.mem_cons_of_mem _ hq))]
    simp [List.length_cons]
    ring

theorem findFreePosition_encodeFile (slots : List Str) (h : SlotsOk slots) :
    findFreePosition (encodeFile slots) = slots.length := by
  rw [findFreePosition, length_encodeFile slots h]
  exact Nat.mul_div_cancel_left _ (by norm_num [RECORD_SIZE_WITH_NL])

theorem readRecord_encodeFile (slots : List Str) (i : Nat) (h : SlotsOk slots)
    (hi : i < slots.length) :
    readRecord (encodeFile slots) i = rstrip (slots.getD i []) := by
  induction slots generalizing i with
  | nil => simp at hi
  | cons p rest ih =>
    have hp : p.length ≤ RECORD_SIZE := h p (List.mem_cons_self _ _)
    have hrest : SlotsOk rest := fun q hq => h q (List.mem_cons_of_mem _ hq)
    have hlj : (ljust p RECORD_SIZE).length = RECORD_SIZE := by
      rw [length_ljust]
      omega
    cases i with
    | zero =>
      rw [readRecord, List.getD_cons_zero]
      have : encodeFile (p :: rest) =
          ljust p RECORD_SIZE ++ ('\n' :: encodeFile rest) := by
        rw [encodeFile_cons, formatRecord]
        simp
      rw [this]
      simp only [Nat.zero_mul, List.drop_zero]
      rw [List.take_left' hlj, rstrip_ljust]
    | succ j =>
      have hj : j < rest.length := by simpa using hi
      have hfr : (formatRecord p).length = RECORD_SIZE_WITH_NL :=
        length_formatRecord hp
      rw [readRecord, List.getD_cons_succ, encodeFile_cons]
      have harith : (j + 1) * RECORD_SIZE_WITH_NL =
          RECORD_SIZE_WITH_NL + j * RECORD_SIZE_WITH_NL := by ring
      rw [harith, ← List.drop_drop, List.drop_left' hfr]
      exact ih j hrest hj

theorem writeRecord_encodeFile_append (slots : List Str) (p : Str) (h : SlotsOk slots) :
    writeRecord (encodeFile slots) slots.length (formatRecord p) =
      encodeFile (slots ++ [p]) := by
  have hlen : (encodeFile slots).length = slots.length * RECORD_SIZE_WITH_NL := by
    rw [length_encodeFile slots h]
    ring
  rw [writeRecord]
  rw [List.take_of_length_le (by omega), hlen]
  rw [List.drop_eq_nil_of_le (by omega)]
  simp [encodeFile_append, encodeFile_cons, encodeFile]

theorem writeRecord_encodeFile_set (slots : List Str) (i : Nat) (p : Str)
    (h : SlotsOk slots) (hi : i < slots.length) (hp : p.length ≤ RECORD_SIZE) :
    writeRecord (encodeFile slots) i (formatRecord p) =
      encodeFile (slots.set i p) := by
  have hpfr : (formatRecord p).length = RECORD_SIZE_WITH_NL := length_formatRecord hp
  induction slots generalizing i with
  | nil => simp at hi
  | cons q rest ih =>
    have hq : q.length ≤ RECORD_SIZE := h q (List.mem_cons_self _ _)
    have hrest : SlotsOk rest := fun r hr => h r (List.mem_cons_of_mem _ hr)
    have hfr : (formatRecord q).length = RECORD_SIZE_WITH_NL := length_formatRecord hq
    cases i with
    | zero =>
      rw [writeRecord]
      simp only [Nat.zero_mul, List.take_zero, Nat.zero_sub, List.replicate_zero,
        Nat.zero_add, List.set_cons_zero, List.nil_append]
      rw [encodeFile_cons, encodeFile_cons, hpfr, ← hfr, List.drop_left]
    | succ j =>
      have hj : j < rest.length := by simpa using hi
      have henc : (encodeFile rest).length = RECORD_SIZE_WITH_NL * rest.length :=
        length_encodeFile rest hrest
      rw [List.set_cons_succ, encodeFile_cons, encodeFile_cons, ← ih j hrest hj]
      rw [writeRecord, writeRecord]
      have harith : (j + 1) * RECORD_SIZE_WITH_NL =
          RECORD_SIZE_WITH_NL + j * RECORD_SIZE_WITH_NL := by ring
      have hmul : j * RECORD_SIZE_WITH_NL + RECORD_SIZE_WITH_NL ≤
          RECORD_SIZE_WITH_NL * rest.length := by
        have h1 : (j + 1) * RECORD_SIZE_WITH_NL ≤ rest.length * RECORD_SIZE_WITH_NL :=
          Nat.mul_le_mul_right _ hj
        rw [Nat.succ_mul, Nat.mul_comm rest.length] at h1
        exact h1
      have htake : List.take (RECORD_SIZE_WITH_NL + j * RECORD_SIZE_WITH_NL)
          (formatRecord q ++ encodeFile rest) =
          formatRecord q ++ List.take (j * RECORD_SIZE_WITH_NL) (encodeFile rest) := by
        rw [List.take_append_eq_append_take,
          List.take_of_length_le (by rw [hfr]; omega), hfr, Nat.add_sub_cancel_left]
      have hdrop : List.drop (RECORD_SIZE_WITH_NL + j * RECORD_SIZE_WITH_NL +
            (formatRecord p).length) (formatRecord q ++ encodeFile rest) =
          List.drop (j * RECORD_SIZE_WITH_NL + (formatRecord p).length)
            (encodeFile rest) := by
        rw [List.drop_append_eq_append_drop,
          List.drop_eq_nil_of_le (by rw [hfr, hpfr]; omega), List.nil_append, hfr]
        have heq : RECORD_SIZE_WITH_NL + j * RECORD_SIZE_WITH_NL +
            (formatRecord p).length - RECORD_SIZE_WITH_NL =
            j * RECORD_SIZE_WITH_NL + (formatRecord p).length := by
          rw [hpfr]
          omega
        rw [heq]
      have hrep1 : RECORD_SIZE_WITH_NL + j * RECORD_SIZE_WITH_NL -
          (formatRecord q ++ encodeFile rest).length = 0 := by
        rw [List.length_append, hfr, henc]
        omega
      have hrep2 : j * RECORD_SIZE_WITH_NL - (encodeFile rest).length = 0 := by
        rw [henc]
        omega
      rw [harith, htake, hdrop, hrep1, hrep2]
      simp

/-! ### Decoding round-trips for serialized entities -/

theorem FieldOk.pstrip_eq {f : Str} (h : FieldOk f) : pstrip f = f := by
  rw [pstrip, h.2.1, h.2.2]

theorem statusValue_ok (st : CarStatus) :
    FieldOk st.value ∧ st.value ≠ [] ∧ st.value.length ≤ 9 := by
  cases st <;> exact ⟨by decide, by decide, by decide⟩

theorem parseStatus_value (st : CarStatus) : parseStatus st.value = some st := by
  cases st <;> decide

theorem joinBar_singleton (a : Str) : joinBar [a] = a := by
  simp [joinBar, List.intercalate]

theorem rstrip_joinBar₅ (f0 f1 f2 f3 f4 : Str) (h4 : rstrip f4 = f4) (hne : f4 ≠ []) :
    rstrip (joinBar [f0, f1, f2, f3, f4]) = joinBar [f0, f1, f2, f3, f4] := by
  have hshape : joinBar [f0, f1, f2, f3, f4] =
      (f0 ++ '|' :: (f1 ++ '|' :: (f2 ++ '|' :: (f3 ++ [ '|' ])))) ++ f4 := by
    rw [joinBar_cons₂, joinBar_cons₂, joinBar_cons₂, joinBar_cons₂, joinBar_singleton]
    simp
  rw [hshape]
  exact rstrip_append_right _ _ h4 hne

theorem splitN_carToStr (car : Car) (h : CarOk car) :
    splitN '|' 4 (carToStr car) =
      [car.vin, car.model, car.price, car.dateStart, car.status.value] :=
  splitN_joinBar₅ _ _ _ _ _ h.1.1 h.2.1.1 h.2.2.1.1 h.2.2.2.1.1

theorem length_carToStr (car : Car) (h : CarOk car) :
    (carToStr car).length ≤ RECORD_SIZE := by
  rw [carToStr, length_joinBar₅]
  have h9 := (statusValue_ok car.status).2.2
  have hb := h.2.2.2.2
  omega

theorem rstrip_carToStr (car : Car) (_h : CarOk car) :
    rstrip (carToStr car) = carToStr car :=
  rstrip_joinBar₅ _ _ _ _ _ (statusValue_ok car.status).1.2.1
    (statusValue_ok car.status).2.1

theorem carOfFields_carToStr (car : Car) (h : CarOk car) :
    carOfFields (splitN '|' 4 (carToStr car)) = some car := by
  rw [splitN_carToStr car h, carOfFields]
  rw [(statusValue_ok car.status).1.pstrip_eq, parseStatus_value,
    h.1.pstrip_eq, h.2.1.pstrip_eq, h.2.2.1.pstrip_eq, h.2.2.2.1.pstrip_eq]

theorem splitN_saleToStr (sale : Sale) (h : SaleOk sale) :
    splitN '|' 4 (saleToStr sale) =
      [sale.salesNumber, sale.carVin, sale.cost, sale.salesDate, lit "False"] :=
  splitN_joinBar₅ _ _ _ _ _ h.1.1 h.2.1.1 h.2.2.1.1 h.2.2.2.1.1

theorem length_saleToStr (sale : Sale) (h : SaleOk sale) :
    (saleToStr sale).length ≤ RECORD_SIZE := by
  rw [saleToStr, length_joinBar₅]
  have hb := h.2.2.2.2
  have : (lit "False").length = 5 := by decide
  omega

theorem rstrip_saleToStr (sale : Sale) (_h : SaleOk sale) :
    rstrip (saleToStr sale) = saleToStr sale :=
  rstrip_joinBar₅ _ _ _ _ _ (by decide) (by decide)

/-! ### C1: the overflow guard of `_format_record` -/

/-- C1 (counterexample): the claim says encoding a payload longer than 500
bytes fails with an encoding error; on the code, `_format_record` performs no
check at all — a 501-character payload is returned as payload + newline, a
502-character record (no error, no truncation, and not a legal 501-byte
slot). -/
theorem C1_counterexample :
    formatRecord (List.replicate 501 'a') = List.replicate 501 'a' ++ [ '\n' ] ∧
      RECORD_SIZE < (List.replicate 501 'a').length ∧
      (formatRecord (List.replicate 501 'a')).length ≠ RECORD_SIZE_WITH_NL := by
  have hz : RECORD_SIZE - (List.replicate 501 'a').length = 0 := by
    rw [List.length_replicate]
    decide
  have hfr : formatRecord (List.replicate 501 'a') =
      List.replicate 501 'a' ++ [ '\n' ] := by
    rw [formatRecord, ljust, hz, List.replicate_zero, List.append_nil]
  refine ⟨hfr, by rw [List.length_replicate]; decide, ?_⟩
  rw [hfr, List.length_append, List.length_replicate]
  decide

/-- C1 (amended): `_format_record` has no length check: every payload longer
than `RECORD_SIZE` is returned unchanged with a newline appended — an
oversized record rather than an encoding error (and also not a truncated
one). -/
theorem C1_amended_no_overflow_check (data : Str) (h : RECORD_SIZE < data.length) :
    formatRecord data = data ++ [ '\n' ] ∧
      (formatRecord data).length = data.length + 1 := by
  have hz : RECORD_SIZE - data.length = 0 := Nat.sub_eq_zero_of_le (Nat.le_of_lt h)
  constructor
  · rw [formatRecord, ljust, hz, List.replicate_zero, List.append_nil]
  · rw [formatRecord, ljust, hz, List.replicate_zero, List.append_nil]
    simp

/-- C1 (witness): the amended theorem applied at the 501-character payload. -/
theorem C1_amended_witness :
    RECORD_SIZE < (List.replicate 501 'a').length ∧
      formatRecord (List.replicate 501 'a') = List.replicate 501 'a' ++ [ '\n' ] :=
  ⟨by rw [List.length_replicate]; decide,
    (C1_amended_no_overflow_check (List.replicate 501 'a')
      (by rw [List.length_replicate]; decide)).1⟩

/-! ### C6: slot-count computation on ill-sized files -/

/-- C6 (counterexample): the claim says the slot-count computation fails when
the file size is not a multiple of 501; on the code, `_find_free_position` is
plain floor division and succeeds on a 502-byte file, returning 1. -/
theorem C6_counterexample :
    findFreePosition (List.replicate 502 'a') = 1 ∧
      (List.replicate 502 'a').length % RECORD_SIZE_WITH_NL ≠ 0 := by
  constructor
  · rw [findFreePosition, List.length_replicate]
    decide
  · rw [List.length_replicate]
    decide

/-- C6 (amended): `_find_free_position` never fails: on any file size
`501 * k + r` with `r < 501` it returns `k`, silently ignoring a trailing
partial slot instead of signalling corruption. -/
theorem C6_amended_floor_division (file : Str) (k r : Nat)
    (hlen : file.length = RECORD_SIZE_WITH_NL * k + r) (hr : r < RECORD_SIZE_WITH_NL) :
    findFreePosition file = k := by
  rw [findFreePosition, hlen]
  simp only [RECORD_SIZE_WITH_NL] at hr ⊢
  omega

/-- C6 (witness): the amended theorem applied to a 502-byte file (one full
slot plus one stray byte). -/
theorem C6_amended_witness : findFreePosition (List.replicate 502 'a') = 1 :=
  C6_amended_floor_division (List.replicate 502 'a') 1 1
    (by rw [List.length_replicate]; decide) (by decide)

/-! ### Index-lookup and slot bookkeeping helpers -/

theorem filter_key_loadIndex (idx : List IndexEntry) (v : Str) :
    (loadIndex idx).filter (fun e => decide (e.1 = v)) =
      idx.filter (fun e => decide (e.1 = v)) :=
  filter_key_sortIndex idx v

theorem find?_key_loadIndex_filter (idx : List IndexEntry) (v : Str) :
    (loadIndex idx).find? (fun e => decide (e.1 = v)) =
      (idx.filter (fun e => decide (e.1 = v))).head? := by
  rw [find?_eq_head?_filter, filter_key_loadIndex]

theorem SlotsOk.append {a b : List Str} (h1 : SlotsOk a) (h2 : SlotsOk b) :
    SlotsOk (a ++ b) := by
  intro p hp
  rcases List.mem_append.mp hp with h | h
  · exact h1 p h
  · exact h2 p h

theorem SlotsOk.single {p : Str} (h : p.length ≤ RECORD_SIZE) : SlotsOk [p] := by
  intro q hq
  rw [List.mem_singleton.mp hq]
  exact h

theorem SlotsOk.set {slots : List Str} {i : Nat} {p : Str} (h : SlotsOk slots)
    (hp : p.length ≤ RECORD_SIZE) : SlotsOk (slots.set i p) := by
  intro q hq
  rcases List.mem_or_eq_of_mem_set hq with h' | h'
  · exact h q h'
  · rw [h']
    exact hp

theorem getD_append_length (l : List α) (x : α) (d : α) :
    (l ++ [x]).getD l.length d = x := by
  rw [List.getD_eq_getElem?_getD, List.getElem?_append_right (Nat.le_refl _)]
  simp

theorem getD_append_of_lt (l l₂ : List α) (i : Nat) (hi : i < l.length) (d : α) :
    (l ++ l₂).getD i d = l.getD i d := by
  rw [List.getD_eq_getElem?_getD, List.getElem?_append, if_pos hi,
    ← List.getD_eq_getElem?_getD]

/-! ### C3: add/find round-trip for cars -/

/-- C3: for every well-formed car added through `add_car` into a slot-structured
cars file whose index does not yet contain the car's vin, an immediate
`_get_car_by_vin` lookup returns a car decoding to exactly the same field
values. -/
theorem C3_add_find_roundtrip (s : CarService) (car : Car) (slots : List Str)
    (hfile : s.carsFile = encodeFile slots) (hok : SlotsOk slots) (hc : CarOk car)
    (hfresh : s.carsIndexFile.filter (fun e => decide (e.1 = car.vin)) = []) :
    getCarByVin (addCar s car) car.vin = .ok car := by
  have hlen : (carToStr car).length ≤ RECORD_SIZE := length_carToStr car hc
  have hok' : SlotsOk (slots ++ [carToStr car]) := hok.append (SlotsOk.single hlen)
  have hpos : findFreePosition s.carsFile = slots.length := by
    rw [hfile, findFreePosition_encodeFile slots hok]
  have hfile' : (addCar s car).carsFile = encodeFile (slots ++ [carToStr car]) := by
    rw [addCar, hpos, hfile]
    exact writeRecord_encodeFile_append slots (carToStr car) hok
  have hidx : (addCar s car).carsIndexFile =
      sortIndex (loadIndex s.carsIndexFile ++ [(car.vin, slots.length)]) := by
    rw [addCar, hpos]
  have hfind : ((loadIndex (addCar s car).carsIndexFile).find?
      (fun e => decide (e.1 = car.vin))) = some (car.vin, slots.length) := by
    rw [find?_key_loadIndex_filter, hidx, filter_key_sortIndex, List.filter_append,
      filter_key_loadIndex, hfresh, List.nil_append,
      List.filter_cons_of_pos (by simp), List.filter_nil]
    rfl
  have hread : readRecord (addCar s car).carsFile slots.length = carToStr car := by
    rw [hfile', readRecord_encodeFile _ _ hok' (by simp),
      getD_append_length, rstrip_carToStr car hc]
  have hfcv : findCarByVin (addCar s car) car.vin = some (carToStr car) := by
    rw [findCarByVin, hfind]
    exact congrArg some hread
  simp only [getCarByVin, hfcv, carOfFields_carToStr car hc]

/-- C3 (witness): round-trip of a concrete car through a service whose cars
file already holds one unrelated record. -/
theorem C3_witness :
    getCarByVin
      (addCar
        { initialService with
            carsFile := encodeFile [lit "X1|m|1|2024-01-01|available"],
            carsIndexFile := [(lit "X1", 0)] }
        ⟨lit "V1", lit "m2", lit "42", lit "2024-02-02", .reserved⟩)
      (lit "V1") =
      .ok ⟨lit "V1", lit "m2", lit "42", lit "2024-02-02", .reserved⟩ :=
  C3_add_find_roundtrip _ _ [lit "X1|m|1|2024-01-01|available"] rfl
    (by decide) (by decide) (by decide)

/-! ### C9: non-atomic failure of `sell_car` on a missing car -/

theorem updateCarStatus_missing (s : CarService) (vin status : Str)
    (hmiss : s.carsIndexFile.filter (fun e => decide (e.1 = vin)) = []) :
    updateCarStatus s vin status = s := by
  simp only [updateCarStatus, find?_key_loadIndex_filter, hmiss, List.head?_nil]

theorem findCarByVin_missing (s : CarService) (vin : Str)
    (hmiss : s.carsIndexFile.filter (fun e => decide (e.1 = vin)) = []) :
    findCarByVin s vin = none := by
  simp only [findCarByVin, find?_key_loadIndex_filter, hmiss, List.head?_nil,
    Option.map_none']

theorem getCarByVin_missing (s : CarService) (vin : Str)
    (hmiss : s.carsIndexFile.filter (fun e => decide (e.1 = vin)) = []) :
    getCarByVin s vin = .error (.carNotFound vin) := by
  simp only [getCarByVin, findCarByVin_missing s vin hmiss]

/-- C9: selling a sale whose car vin is absent from the cars index raises the
car-not-found error, but only after the sale record and its index entry have
been durably written: the failed call leaves the new sale persisted with
deleted = `"False"` and the cars file and cars index untouched. -/
theorem C9_sell_missing_car_not_atomic (s : CarService) (sale : Sale)
    (saleSlots : List Str) (hsf : s.salesFile = encodeFile saleSlots)
    (hsok : SlotsOk saleSlots) (hs : SaleOk sale)
    (hmiss : s.carsIndexFile.filter (fun e => decide (e.1 = sale.carVin)) = []) :
    (sellCar s sale).2 = .error (.carNotFound sale.carVin) ∧
      (sellCar s sale).1.carsFile = s.carsFile ∧
      (sellCar s sale).1.carsIndexFile = s.carsIndexFile ∧
      (sellCar s sale).1.salesFile = encodeFile (saleSlots ++ [saleToStr sale]) ∧
      (sellCar s sale).1.salesIndexFile =
        sortIndex (loadIndex s.salesIndexFile ++
          [(sale.salesNumber, saleSlots.length)]) ∧
      splitN '|' 4 (readRecord (sellCar s sale).1.salesFile saleSlots.length) =
        [sale.salesNumber, sale.carVin, sale.cost, sale.salesDate, lit "False"] := by
  have hlen : (saleToStr sale).length ≤ RECORD_SIZE := length_saleToStr sale hs
  have hok' : SlotsOk (saleSlots ++ [saleToStr sale]) :=
    hsok.append (SlotsOk.single hlen)
  have hpos : findFreePosition s.salesFile = saleSlots.length := by
    rw [hsf, findFreePosition_encodeFile saleSlots hsok]
  have hwr : writeRecord s.salesFile (findFreePosition s.salesFile)
      (formatRecord (saleToStr sale)) = encodeFile (saleSlots ++ [saleToStr sale]) := by
    rw [hpos, hsf]
    exact writeRecord_encodeFile_append saleSlots (saleToStr sale) hsok
  have hread : readRecord (encodeFile (saleSlots ++ [saleToStr sale]))
      saleSlots.length = saleToStr sale := by
    rw [readRecord_encodeFile _ _ hok' (by simp), getD_append_length,
      rstrip_saleToStr sale hs]
  simp only [sellCar, hwr]
  rw [updateCarStatus_missing _ _ _ (by simpa using hmiss)]
  refine ⟨getCarByVin_missing _ _ (by simpa using hmiss), rfl, rfl, rfl, ?_, ?_⟩
  · simp [hpos]
  · simp only [hread, splitN_saleToStr sale hs]

/-- C9 (witness): selling against an empty service (no cars at all). -/
theorem C9_witness :
    (sellCar initialService ⟨lit "S1", lit "V9", lit "10", lit "2024-01-01"⟩).2 =
        .error (.carNotFound (lit "V9")) ∧
      (sellCar initialService ⟨lit "S1", lit "V9", lit "10", lit "2024-01-01"⟩).1.carsFile =
        initialService.carsFile ∧
      (sellCar initialService ⟨lit "S1", lit "V9", lit "10", lit "2024-01-01"⟩).1.carsIndexFile =
        initialService.carsIndexFile ∧
      (sellCar initialService ⟨lit "S1", lit "V9", lit "10", lit "2024-01-01"⟩).1.salesFile =
        encodeFile ([] ++ [saleToStr ⟨lit "S1", lit "V9", lit "10", lit "2024-01-01"⟩]) ∧
      (sellCar initialService ⟨lit "S1", lit "V9", lit "10", lit "2024-01-01"⟩).1.salesIndexFile =
        sortIndex (loadIndex initialService.salesIndexFile ++ [(lit "S1", 0)]) ∧
      splitN '|' 4 (readRecord
          (sellCar initialService ⟨lit "S1", lit "V9", lit "10", lit "2024-01-01"⟩).1.salesFile 0) =
        [lit "S1", lit "V9", lit "10", lit "2024-01-01", lit "False"] :=
  C9_sell_missing_car_not_atomic initialService
    ⟨lit "S1", lit "V9", lit "10", lit "2024-01-01"⟩ [] rfl (by decide) (by decide) rfl

/-! ### Found-vin helpers shared by the lifecycle claims -/

theorem getD_set_self (l : List α) (i : Nat) (p d : α) (hi : i < l.length) :
    (l.set i p).getD i d = p := by
  rw [List.getD_eq_getElem?_getD, List.getElem?_set_self hi]
  rfl

theorem CarOk.withStatus {car : Car} (hc : CarOk car) (st : CarStatus) :
    CarOk { car with status := st } :=
  ⟨hc.1, hc.2.1, hc.2.2.1, hc.2.2.2.1, hc.2.2.2.2⟩

theorem carToStr_withStatus (car : Car) (st : CarStatus) :
    carToStr { car with status := st } =
      joinBar [car.vin, car.model, car.price, car.dateStart, st.value] := rfl

theorem withStatus_twice (car : Car) (st1 st2 : CarStatus) :
    ({ ({ car with status := st1 } : Car) with status := st2 } : Car) =
      { car with status := st2 } := rfl

/-- `_update_car_status` on a vin whose unique index entry points at slot `cp`
holding the serialized `car`: rewrites exactly that slot with the status field
replaced. -/
theorem updateCarStatus_found (s : CarService) (car : Car) (vin : Str)
    (slots : List Str) (cp : Nat) (st : CarStatus) (hvin : car.vin = vin)
    (hcf : s.carsFile = encodeFile slots)
    (hok : SlotsOk slots) (hcp : cp < slots.length)
    (hslot : slots.getD cp [] = carToStr car) (hc : CarOk car)
    (hidx : s.carsIndexFile.filter (fun e => decide (e.1 = vin)) = [(vin, cp)]) :
    updateCarStatus s vin st.value =
      { s with carsFile :=
          encodeFile (slots.set cp (carToStr { car with status := st })) } := by
  subst hvin
  have hfind : (loadIndex s.carsIndexFile).find? (fun e => decide (e.1 = car.vin)) =
      some (car.vin, cp) := by
    rw [find?_key_loadIndex_filter, hidx]
    rfl
  have hread : readRecord s.carsFile cp = carToStr car := by
    rw [hcf, readRecord_encodeFile _ _ hok hcp, hslot, rstrip_carToStr car hc]
  have hfields : splitN '|' 4 (readRecord s.carsFile cp) =
      [car.vin, car.model, car.price, car.dateStart, car.status.value] := by
    rw [hread, splitN_carToStr car hc]
  simp only [updateCarStatus, hfind, hfields]
  rw [if_pos (by simp)]
  have hset : [car.vin, car.model, car.price, car.dateStart,
      car.status.value].set 4 st.value =
      [car.vin, car.model, car.price, car.dateStart, st.value] := rfl
  rw [hset, ← carToStr_withStatus, hcf,
    writeRecord_encodeFile_set slots cp _ hok hcp
      (length_carToStr _ (hc.withStatus st))]

/-- `_get_car_by_vin` on a vin whose unique index entry points at slot `cp`
holding the serialized `car`: decodes that car. -/
theorem getCarByVin_found (s : CarService) (car : Car) (vin : Str)
    (slots : List Str) (cp : Nat) (hvin : car.vin = vin)
    (hcf : s.carsFile = encodeFile slots) (hok : SlotsOk slots)
    (hcp : cp < slots.length) (hslot : slots.getD cp [] = carToStr car)
    (hc : CarOk car)
    (hidx : s.carsIndexFile.filter (fun e => decide (e.1 = vin)) = [(vin, cp)]) :
    getCarByVin s vin = .ok car := by
  subst hvin
  have hfind : (loadIndex s.carsIndexFile).find? (fun e => decide (e.1 = car.vin)) =
      some (car.vin, cp) := by
    rw [find?_key_loadIndex_filter, hidx]
    rfl
  have hread : readRecord s.carsFile cp = carToStr car := by
    rw [hcf, readRecord_encodeFile _ _ hok hcp, hslot, rstrip_carToStr car hc]
  have hfcv : findCarByVin s car.vin = some (carToStr car) := by
    rw [findCarByVin, hfind]
    exact congrArg some hread
  simp only [getCarByVin, hfcv, carOfFields_carToStr car hc]

/-! ### C2: the sale lifecycle -/

theorem pstrip_lit_False : pstrip (lit "False") = lit "False" := by decide

theorem lit_False_ne_True : ¬(pstrip (lit "False") = lit "True") := by decide

theorem pstrip_lit_True : pstrip (lit "True") = lit "True" := by decide

theorem saleFields_set4_True (sale : Sale) :
    [sale.salesNumber, sale.carVin, sale.cost, sale.salesDate, lit "False"].set 4
      (lit "True") =
      [sale.salesNumber, sale.carVin, sale.cost, sale.salesDate, lit "True"] := rfl

theorem length_saleTrue (sale : Sale) (hs : SaleOk sale) :
    (joinBar [sale.salesNumber, sale.carVin, sale.cost, sale.salesDate,
      lit "True"]).length ≤ RECORD_SIZE := by
  rw [length_joinBar₅]
  have hb := hs.2.2.2.2
  have : (lit "True").length = 4 := by decide
  omega

theorem rstrip_saleTrue (sale : Sale) :
    rstrip (joinBar [sale.salesNumber, sale.carVin, sale.cost, sale.salesDate,
      lit "True"]) =
      joinBar [sale.salesNumber, sale.carVin, sale.cost, sale.salesDate, lit "True"] :=
  rstrip_joinBar₅ _ _ _ _ _ (by decide) (by decide)

theorem splitN_saleTrue (sale : Sale) (hs : SaleOk sale) :
    splitN '|' 4 (joinBar [sale.salesNumber, sale.carVin, sale.cost, sale.salesDate,
      lit "True"]) =
      [sale.salesNumber, sale.carVin, sale.cost, sale.salesDate, lit "True"] :=
  splitN_joinBar₅ _ _ _ _ _ hs.1.1 hs.2.1.1 hs.2.2.1.1 hs.2.2.2.1.1

/-- C2: for an existing well-formed car (unique index entry at slot `cp`) and
a fresh well-formed sale referencing it: `sell_car` returns the car with
status `sold`, stores it, and appends the sale record with deleted `"False"`;
`revert_sale` then flips the stored sale to `"True"` and restores the stored
car (and the returned one) to `available`; a second `revert_sale` of the same
sales number fails with the already-deleted error and leaves the state
unchanged. -/
theorem C2_sale_lifecycle (s : CarService) (car : Car) (sale : Sale)
    (carSlots saleSlots : List Str) (cp : Nat)
    (hcf : s.carsFile = encodeFile carSlots) (hcok : SlotsOk carSlots)
    (hsf : s.salesFile = encodeFile saleSlots) (hsok : SlotsOk saleSlots)
    (hc : CarOk car) (hs : SaleOk sale) (hlink : sale.carVin = car.vin)
    (hcp : cp < carSlots.length) (hslot : carSlots.getD cp [] = carToStr car)
    (hcidx : s.carsIndexFile.filter (fun e => decide (e.1 = car.vin)) =
      [(car.vin, cp)])
    (hsfresh : s.salesIndexFile.filter (fun e => decide (e.1 = sale.salesNumber)) = []) :
    (sellCar s sale).2 = .ok { car with status := .sold } ∧
      splitN '|' 4 (readRecord (sellCar s sale).1.salesFile saleSlots.length) =
        [sale.salesNumber, sale.carVin, sale.cost, sale.salesDate, lit "False"] ∧
      splitN '|' 4 (readRecord (sellCar s sale).1.carsFile cp) =
        [car.vin, car.model, car.price, car.dateStart, CarStatus.sold.value] ∧
      (revertSale (sellCar s sale).1 sale.salesNumber).2 =
        .ok { car with status := .available } ∧
      splitN '|' 4 (readRecord
          (revertSale (sellCar s sale).1 sale.salesNumber).1.salesFile
          saleSlots.length) =
        [sale.salesNumber, sale.carVin, sale.cost, sale.salesDate, lit "True"] ∧
      splitN '|' 4 (readRecord
          (revertSale (sellCar s sale).1 sale.salesNumber).1.carsFile cp) =
        [car.vin, car.model, car.price, car.dateStart, CarStatus.available.value] ∧
      revertSale (revertSale (sellCar s sale).1 sale.salesNumber).1 sale.salesNumber =
        ((revertSale (sellCar s sale).1 sale.salesNumber).1,
          .error (.alreadyDeleted sale.salesNumber)) := by
  -- well-formedness bookkeeping
  have hsold : CarOk { car with status := CarStatus.sold } := hc.withStatus _
  have havail : CarOk { car with status := CarStatus.available } := hc.withStatus _
  have hsalelen : (saleToStr sale).length ≤ RECORD_SIZE := length_saleToStr sale hs
  have hsok1 : SlotsOk (saleSlots ++ [saleToStr sale]) :=
    hsok.append (SlotsOk.single hsalelen)
  have hcok1 : SlotsOk (carSlots.set cp (carToStr { car with status := CarStatus.sold })) :=
    hcok.set (length_carToStr _ hsold)
  have hcp1 : cp < (carSlots.set cp (carToStr { car with status := CarStatus.sold })).length := by
    rw [List.length_set]
    exact hcp
  have hn1 : saleSlots.length < (saleSlots ++ [saleToStr sale]).length := by
    simp
  -- phase 1: sell_car
  have hApos : findFreePosition s.salesFile = saleSlots.length := by
    rw [hsf, findFreePosition_encodeFile _ hsok]
  have hAwr : writeRecord s.salesFile saleSlots.length
      (formatRecord (saleToStr sale)) = encodeFile (saleSlots ++ [saleToStr sale]) := by
    rw [hsf]
    exact writeRecord_encodeFile_append _ _ hsok
  have hucs := updateCarStatus_found
    { s with salesFile := encodeFile (saleSlots ++ [saleToStr sale]),
             salesIndexFile := sortIndex (loadIndex s.salesIndexFile ++
               [(sale.salesNumber, saleSlots.length)]) }
    car car.vin carSlots cp .sold rfl hcf hcok hcp hslot hc hcidx
  have hget1 := getCarByVin_found
    { s with
      carsFile := encodeFile (carSlots.set cp (carToStr { car with status := CarStatus.sold })),
      salesFile := encodeFile (saleSlots ++ [saleToStr sale]),
      salesIndexFile := sortIndex (loadIndex s.salesIndexFile ++ [(sale.salesNumber, saleSlots.length)]) }
    { car with status := CarStatus.sold } car.vin
    (carSlots.set cp (carToStr { car with status := CarStatus.sold })) cp
    rfl rfl hcok1 hcp1
    (getD_set_self _ _ _ _ hcp) hsold hcidx
  have hsell : sellCar s sale =
      ({ s with
        carsFile := encodeFile (carSlots.set cp (carToStr { car with status := CarStatus.sold })),
        salesFile := encodeFile (saleSlots ++ [saleToStr sale]),
        salesIndexFile := sortIndex (loadIndex s.salesIndexFile ++ [(sale.salesNumber, saleSlots.length)]) },
       .ok { car with status := CarStatus.sold }) := by
    simp only [sellCar, hlink, hAwr, hApos]
    rw [hucs, hget1]
  -- phase 2: revert_sale on the sold state
  have hfindS : (loadIndex (sortIndex (loadIndex s.salesIndexFile ++
      [(sale.salesNumber, saleSlots.length)]))).find?
      (fun e => decide (e.1 = sale.salesNumber)) =
      some (sale.salesNumber, saleSlots.length) := by
    rw [find?_key_loadIndex_filter, filter_key_sortIndex, List.filter_append,
      filter_key_loadIndex, hsfresh, List.nil_append,
      List.filter_cons_of_pos (by simp), List.filter_nil]
    rfl
  have hreadS1 : readRecord (encodeFile (saleSlots ++ [saleToStr sale]))
      saleSlots.length = saleToStr sale := by
    rw [readRecord_encodeFile _ _ hsok1 hn1, getD_append_length,
      rstrip_saleToStr sale hs]
  have hsok2 : SlotsOk ((saleSlots ++ [saleToStr sale]).set saleSlots.length
      (joinBar [sale.salesNumber, sale.carVin, sale.cost, sale.salesDate,
        lit "True"])) :=
    hsok1.set (length_saleTrue sale hs)
  have hwrS : writeRecord (encodeFile (saleSlots ++ [saleToStr sale]))
      saleSlots.length (formatRecord (joinBar [sale.salesNumber, sale.carVin,
        sale.cost, sale.salesDate, lit "True"])) =
      encodeFile ((saleSlots ++ [saleToStr sale]).set saleSlots.length
        (joinBar [sale.salesNumber, sale.carVin, sale.cost, sale.salesDate,
          lit "True"])) :=
    writeRecord_encodeFile_set _ _ _ hsok1 hn1 (length_saleTrue sale hs)
  have hcidx2 : s.carsIndexFile.filter (fun e => decide (e.1 = sale.carVin)) =
      [(sale.carVin, cp)] := by
    rw [hlink]
    exact hcidx
  have hucs2 := updateCarStatus_found
    { s with
      carsFile := encodeFile (carSlots.set cp (carToStr { car with status := CarStatus.sold })),
      salesFile := encodeFile ((saleSlots ++ [saleToStr sale]).set saleSlots.length (joinBar [sale.salesNumber, sale.carVin, sale.cost, sale.salesDate, lit "True"])),
      salesIndexFile := sortIndex (loadIndex s.salesIndexFile ++ [(sale.salesNumber, saleSlots.length)]) }
    { car with status := CarStatus.sold } sale.carVin
    (carSlots.set cp (carToStr { car with status := CarStatus.sold })) cp .available
    hlink.symm rfl hcok1 hcp1 (getD_set_self _ _ _ _ hcp) hsold hcidx2
  rw [withStatus_twice] at hucs2
  have hcok2 : SlotsOk ((carSlots.set cp
      (carToStr { car with status := CarStatus.sold })).set cp
      (carToStr { car with status := CarStatus.available })) :=
    hcok1.set (length_carToStr _ havail)
  have hcp2 : cp < ((carSlots.set cp
      (carToStr { car with status := CarStatus.sold })).set cp
      (carToStr { car with status := CarStatus.available })).length := by
    rw [List.length_set]
    exact hcp1
  have hget2 := getCarByVin_found
    { s with
      carsFile := encodeFile ((carSlots.set cp (carToStr { car with status := CarStatus.sold })).set cp (carToStr { car with status := CarStatus.available })),
      salesFile := encodeFile ((saleSlots ++ [saleToStr sale]).set saleSlots.length (joinBar [sale.salesNumber, sale.carVin, sale.cost, sale.salesDate, lit "True"])),
      salesIndexFile := sortIndex (loadIndex s.salesIndexFile ++ [(sale.salesNumber, saleSlots.length)]) }
    { car with status := CarStatus.available } sale.carVin
    ((carSlots.set cp (carToStr { car with status := CarStatus.sold })).set cp
      (carToStr { car with status := CarStatus.available })) cp
    hlink.symm rfl hcok2 hcp2 (getD_set_self _ _ _ _ hcp1) havail hcidx2
  have hrevert : revertSale
      { s with
        carsFile := encodeFile (carSlots.set cp (carToStr { car with status := CarStatus.sold })),
        salesFile := encodeFile (saleSlots ++ [saleToStr sale]),
        salesIndexFile := sortIndex (loadIndex s.salesIndexFile ++ [(sale.salesNumber, saleSlots.length)]) }
      sale.salesNumber =
      ({ s with
        carsFile := encodeFile ((carSlots.set cp (carToStr { car with status := CarStatus.sold })).set cp (carToStr { car with status := CarStatus.available })),
        salesFile := encodeFile ((saleSlots ++ [saleToStr sale]).set saleSlots.length (joinBar [sale.salesNumber, sale.carVin, sale.cost, sale.salesDate, lit "True"])),
        salesIndexFile := sortIndex (loadIndex s.salesIndexFile ++ [(sale.salesNumber, saleSlots.length)]) },
       .ok { car with status := CarStatus.available }) := by
    simp only [revertSale, hfindS, hreadS1, splitN_saleToStr sale hs]
    rw [if_pos (show ([sale.salesNumber, sale.carVin, sale.cost, sale.salesDate,
      lit "False"] : List Str).length = 5 from rfl)]
    rw [show (([sale.salesNumber, sale.carVin, sale.cost, sale.salesDate,
      lit "False"] : List Str).getD 4 []) = lit "False" from rfl, pstrip_lit_False]
    rw [if_neg (by decide : ¬((lit "False" : Str) = lit "True"))]
    rw [saleFields_set4_True, hwrS]
    rw [show (([sale.salesNumber, sale.carVin, sale.cost, sale.salesDate,
      lit "True"] : List Str).getD 1 []) = sale.carVin from rfl]
    rw [hs.2.1.pstrip_eq, hucs2, hget2]
  -- phase 3: the second revert_sale fails with AlreadyDeleted
  have hn2 : saleSlots.length < ((saleSlots ++ [saleToStr sale]).set
      saleSlots.length (joinBar [sale.salesNumber, sale.carVin, sale.cost,
        sale.salesDate, lit "True"])).length := by
    rw [List.length_set]
    exact hn1
  have hreadS2 : readRecord (encodeFile ((saleSlots ++ [saleToStr sale]).set
      saleSlots.length (joinBar [sale.salesNumber, sale.carVin, sale.cost,
        sale.salesDate, lit "True"]))) saleSlots.length =
      joinBar [sale.salesNumber, sale.carVin, sale.cost, sale.salesDate,
        lit "True"] := by
    rw [readRecord_encodeFile _ _ hsok2 hn2, getD_set_self _ _ _ _ hn1,
      rstrip_saleTrue]
  have hrevert2 : revertSale
      { s with
        carsFile := encodeFile ((carSlots.set cp (carToStr { car with status := CarStatus.sold })).set cp (carToStr { car with status := CarStatus.available })),
        salesFile := encodeFile ((saleSlots ++ [saleToStr sale]).set saleSlots.length (joinBar [sale.salesNumber, sale.carVin, sale.cost, sale.salesDate, lit "True"])),
        salesIndexFile := sortIndex (loadIndex s.salesIndexFile ++ [(sale.salesNumber, saleSlots.length)]) }
      sale.salesNumber =
      ({ s with
        carsFile := encodeFile ((carSlots.set cp (carToStr { car with status := CarStatus.sold })).set cp (carToStr { car with status := CarStatus.available })),
        salesFile := encodeFile ((saleSlots ++ [saleToStr sale]).set saleSlots.length (joinBar [sale.salesNumber, sale.carVin, sale.cost, sale.salesDate, lit "True"])),
        salesIndexFile := sortIndex (loadIndex s.salesIndexFile ++ [(sale.salesNumber, saleSlots.length)]) },
       .error (.alreadyDeleted sale.salesNumber)) := by
    simp only [revertSale, hfindS, hreadS2, splitN_saleTrue sale hs]
    rw [if_pos (show ([sale.salesNumber, sale.carVin, sale.cost, sale.salesDate,
      lit "True"] : List Str).length = 5 from rfl)]
    rw [show (([sale.salesNumber, sale.carVin, sale.cost, sale.salesDate,
      lit "True"] : List Str).getD 4 []) = lit "True" from rfl, pstrip_lit_True]
    rw [if_pos (rfl : (lit "True" : Str) = lit "True")]
  -- assemble the six observations
  have hreadC1 : readRecord (encodeFile (carSlots.set cp
      (carToStr { car with status := CarStatus.sold }))) cp =
      carToStr { car with status := CarStatus.sold } := by
    rw [readRecord_encodeFile _ _ hcok1 hcp1, getD_set_self _ _ _ _ hcp,
      rstrip_carToStr _ hsold]
  have hreadC2 : readRecord (encodeFile ((carSlots.set cp
      (carToStr { car with status := CarStatus.sold })).set cp
      (carToStr { car with status := CarStatus.available }))) cp =
      carToStr { car with status := CarStatus.available } := by
    rw [readRecord_encodeFile _ _ hcok2 hcp2, getD_set_self _ _ _ _ hcp1,
      rstrip_carToStr _ havail]
  simp only [hsell, hrevert, hrevert2]
  refine ⟨trivial, ?_, ?_, trivial, ?_, ?_, trivial⟩
  · rw [hreadS1, splitN_saleToStr sale hs]
  · rw [hreadC1]
    exact splitN_carToStr _ hsold
  · rw [hreadS2]
    exact splitN_saleTrue sale hs
  · rw [hreadC2]
    exact splitN_carToStr _ havail

/-- C2 (witness): the lifecycle theorem applied to one concrete car and sale,
observing the sold result of the sell and the already-deleted failure of the
second revert. -/
theorem C2_witness :
    (sellCar
        { initialService with
          carsFile := encodeFile [carToStr ⟨lit "V1", lit "M1", lit "100", lit "2024-01-01", .available⟩],
          carsIndexFile := [(lit "V1", 0)] }
        ⟨lit "S1", lit "V1", lit "90", lit "2024-02-01"⟩).2 =
      .ok ⟨lit "V1", lit "M1", lit "100", lit "2024-01-01", .sold⟩ ∧
    revertSale
        (revertSale
          (sellCar
            { initialService with
              carsFile := encodeFile [carToStr ⟨lit "V1", lit "M1", lit "100", lit "2024-01-01", .available⟩],
              carsIndexFile := [(lit "V1", 0)] }
            ⟨lit "S1", lit "V1", lit "90", lit "2024-02-01"⟩).1
          (lit "S1")).1
        (lit "S1") =
      ((revertSale
          (sellCar
            { initialService with
              carsFile := encodeFile [carToStr ⟨lit "V1", lit "M1", lit "100", lit "2024-01-01", .available⟩],
              carsIndexFile := [(lit "V1", 0)] }
            ⟨lit "S1", lit "V1", lit "90", lit "2024-02-01"⟩).1
          (lit "S1")).1,
        .error (.alreadyDeleted (lit "S1"))) := by
  have h := C2_sale_lifecycle
    { initialService with
      carsFile := encodeFile [carToStr ⟨lit "V1", lit "M1", lit "100", lit "2024-01-01", .available⟩],
      carsIndexFile := [(lit "V1", 0)] }
    ⟨lit "V1", lit "M1", lit "100", lit "2024-01-01", .available⟩
    ⟨lit "S1", lit "V1", lit "90", lit "2024-02-01"⟩
    [carToStr ⟨lit "V1", lit "M1", lit "100", lit "2024-01-01", .available⟩] [] 0
    rfl (by decide) rfl (by decide) (by decide) (by decide) rfl (by decide) rfl
    (by decide) rfl
  exact ⟨h.1, h.2.2.2.2.2.2⟩

/-! ### C5: `update_vin` keeps the slot position and the other fields -/

theorem carToStr_withVin (car : Car) (newVin : Str) :
    carToStr { car with vin := newVin } =
      joinBar [newVin, car.model, car.price, car.dateStart, car.status.value] := rfl

/-- C5: renaming a car's vin rewrites the record in place at its existing slot
with only the vin field replaced (model, price, date and status are taken from
the old record), keeps the renamed index entry at the same position, and the
lookup of the new vin returns the car with only the vin changed. -/
theorem C5_update_vin_frame (s : CarService) (car : Car) (newVin : Str)
    (slots : List Str) (cp : Nat)
    (hcf : s.carsFile = encodeFile slots) (hok : SlotsOk slots) (hc : CarOk car)
    (hcp : cp < slots.length) (hslot : slots.getD cp [] = carToStr car)
    (hcidx : s.carsIndexFile.filter (fun e => decide (e.1 = car.vin)) =
      [(car.vin, cp)])
    (hnew : CarOk { car with vin := newVin })
    (hfresh : s.carsIndexFile.filter (fun e => decide (e.1 = newVin)) = []) :
    (updateVin s car.vin newVin).1.carsFile =
        encodeFile (slots.set cp (carToStr { car with vin := newVin })) ∧
      (newVin, cp) ∈ (updateVin s car.vin newVin).1.carsIndexFile ∧
      (updateVin s car.vin newVin).2 = .ok { car with vin := newVin } := by
  have hfind : (loadIndex s.carsIndexFile).find? (fun e => decide (e.1 = car.vin)) =
      some (car.vin, cp) := by
    rw [find?_key_loadIndex_filter, hcidx]
    rfl
  obtain ⟨i, hi⟩ := find?_findIdx? _ _ _ hfind
  obtain ⟨hilen, hfind2⟩ := findIdx?_spec _ _ i (([], 0) : IndexEntry) hi
  have hgetD : (loadIndex s.carsIndexFile).getD i ([], 0) = (car.vin, cp) := by
    rw [hfind] at hfind2
    exact (Option.some_inj.mp hfind2).symm
  have hread : readRecord s.carsFile cp = carToStr car := by
    rw [hcf, readRecord_encodeFile _ _ hok hcp, hslot, rstrip_carToStr car hc]
  have hfields : splitN '|' 4 (readRecord s.carsFile cp) =
      [car.vin, car.model, car.price, car.dateStart, car.status.value] := by
    rw [hread, splitN_carToStr car hc]
  have hwr : writeRecord s.carsFile cp (formatRecord (joinBar
      ([car.vin, car.model, car.price, car.dateStart,
        car.status.value].set 0 newVin))) =
      encodeFile (slots.set cp (carToStr { car with vin := newVin })) := by
    rw [show ([car.vin, car.model, car.price, car.dateStart,
        car.status.value].set 0 newVin) =
      [newVin, car.model, car.price, car.dateStart, car.status.value] from rfl]
    rw [← carToStr_withVin, hcf]
    exact writeRecord_encodeFile_set _ _ _ hok hcp (length_carToStr _ hnew)
  have hnotmem : ∀ e ∈ loadIndex s.carsIndexFile, ¬((fun e => decide (e.1 = newVin)) e = true) := by
    intro e he
    have he' : e ∈ s.carsIndexFile := ((List.perm_insertionSort _ _).mem_iff).mp he
    exact List.filter_eq_nil_iff.mp hfresh e he'
  have hsetlist : (loadIndex s.carsIndexFile).set i (newVin, cp) =
      (loadIndex s.carsIndexFile).take i ++ (newVin, cp) ::
        (loadIndex s.carsIndexFile).drop (i + 1) :=
    List.set_eq_take_cons_drop _ hilen
  have hfiltset : ((loadIndex s.carsIndexFile).set i (newVin, cp)).filter
      (fun e => decide (e.1 = newVin)) = [(newVin, cp)] := by
    rw [hsetlist, List.filter_append, List.filter_cons_of_pos (by simp),
      List.filter_eq_nil_iff.mpr (fun e he => hnotmem e (List.mem_of_mem_take he)),
      List.filter_eq_nil_iff.mpr (fun e he => hnotmem e (List.mem_of_mem_drop he)),
      List.nil_append]
  have hget := getCarByVin_found
    { s with
      carsFile := encodeFile (slots.set cp (carToStr { car with vin := newVin })),
      carsIndexFile := sortIndex ((loadIndex s.carsIndexFile).set i (newVin, cp)) }
    { car with vin := newVin } newVin
    (slots.set cp (carToStr { car with vin := newVin })) cp
    rfl rfl (hok.set (length_carToStr _ hnew)) (by rw [List.length_set]; exact hcp)
    (getD_set_self _ _ _ _ hcp) hnew
    (by
      show (sortIndex ((loadIndex s.carsIndexFile).set i (newVin, cp))).filter
        (fun e => decide (e.1 = newVin)) = [(newVin, cp)]
      rw [filter_key_sortIndex]
      exact hfiltset)
  have hupdate : updateVin s car.vin newVin =
      ({ s with
        carsFile := encodeFile (slots.set cp (carToStr { car with vin := newVin })),
        carsIndexFile := sortIndex ((loadIndex s.carsIndexFile).set i (newVin, cp)) },
       .ok { car with vin := newVin }) := by
    simp only [updateVin, hi, hgetD, hfields]
    rw [if_pos (show ([car.vin, car.model, car.price, car.dateStart,
      car.status.value] : List Str).length = 5 from rfl)]
    simp only [hwr, hget]
  refine ⟨?_, ?_, ?_⟩
  · rw [hupdate]
  · rw [hupdate]
    show (newVin, cp) ∈ sortIndex ((loadIndex s.carsIndexFile).set i (newVin, cp))
    rw [sortIndex, List.mem_insertionSort, hsetlist]
    exact List.mem_append_right _ (List.mem_cons_self _ _)
  · rw [hupdate]

/-- C5 (witness): renaming a concrete car between two others. -/
theorem C5_witness :
    (updateVin
        { initialService with
          carsFile := encodeFile [carToStr ⟨lit "A1", lit "M0", lit "7", lit "2024-01-01", .available⟩,
            carToStr ⟨lit "B2", lit "M1", lit "9", lit "2024-01-02", .available⟩],
          carsIndexFile := [(lit "A1", 0), (lit "B2", 1)] }
        (lit "B2") (lit "Z9")).2 =
      .ok ⟨lit "Z9", lit "M1", lit "9", lit "2024-01-02", .available⟩ ∧
    (lit "Z9", 1) ∈
      (updateVin
        { initialService with
          carsFile := encodeFile [carToStr ⟨lit "A1", lit "M0", lit "7", lit "2024-01-01", .available⟩,
            carToStr ⟨lit "B2", lit "M1", lit "9", lit "2024-01-02", .available⟩],
          carsIndexFile := [(lit "A1", 0), (lit "B2", 1)] }
        (lit "B2") (lit "Z9")).1.carsIndexFile := by
  have h := C5_update_vin_frame
    { initialService with
      carsFile := encodeFile [carToStr ⟨lit "A1", lit "M0", lit "7", lit "2024-01-01", .available⟩,
        carToStr ⟨lit "B2", lit "M1", lit "9", lit "2024-01-02", .available⟩],
      carsIndexFile := [(lit "A1", 0), (lit "B2", 1)] }
    ⟨lit "B2", lit "M1", lit "9", lit "2024-01-02", .available⟩ (lit "Z9")
    [carToStr ⟨lit "A1", lit "M0", lit "7", lit "2024-01-01", .available⟩,
      carToStr ⟨lit "B2", lit "M1", lit "9", lit "2024-01-02", .available⟩] 1
    rfl (by decide) (by decide) (by decide) rfl (by decide) (by decide) (by decide)
  exact ⟨h.2.2, h.2.1⟩

/-! ### C10: duplicate vins — first insert wins on every lookup -/

/-- `update_vin` when the vin has two index entries (a duplicate): the scan
stops at the first one, so the first-inserted record is the one rewritten with
the new vin and the renamed entry keeps its position; the duplicate's index
entry survives untouched. -/
theorem updateVin_first_of_two (s : CarService) (car : Car) (newVin : Str)
    (slots : List Str) (cp cq : Nat)
    (hcf : s.carsFile = encodeFile slots) (hok : SlotsOk slots) (hc : CarOk car)
    (hcp : cp < slots.length) (hslot : slots.getD cp [] = carToStr car)
    (hcidx : s.carsIndexFile.filter (fun e => decide (e.1 = car.vin)) =
      [(car.vin, cp), (car.vin, cq)])
    (hnew : CarOk { car with vin := newVin }) (hcpq : ¬(cq = cp))
    (hfresh : s.carsIndexFile.filter (fun e => decide (e.1 = newVin)) = []) :
    (updateVin s car.vin newVin).1.carsFile =
        encodeFile (slots.set cp (carToStr { car with vin := newVin })) ∧
      (newVin, cp) ∈ (updateVin s car.vin newVin).1.carsIndexFile ∧
      (car.vin, cq) ∈ (updateVin s car.vin newVin).1.carsIndexFile ∧
      (updateVin s car.vin newVin).2 = .ok { car with vin := newVin } := by
  have hfind : (loadIndex s.carsIndexFile).find? (fun e => decide (e.1 = car.vin)) =
      some (car.vin, cp) := by
    rw [find?_key_loadIndex_filter, hcidx]
    rfl
  obtain ⟨i, hi⟩ := find?_findIdx? _ _ _ hfind
  obtain ⟨hilen, hfind2⟩ := findIdx?_spec _ _ i (([], 0) : IndexEntry) hi
  have hgetD : (loadIndex s.carsIndexFile).getD i ([], 0) = (car.vin, cp) := by
    rw [hfind] at hfind2
    exact (Option.some_inj.mp hfind2).symm
  have hread : readRecord s.carsFile cp = carToStr car := by
    rw [hcf, readRecord_encodeFile _ _ hok hcp, hslot, rstrip_carToStr car hc]
  have hfields : splitN '|' 4 (readRecord s.carsFile cp) =
      [car.vin, car.model, car.price, car.dateStart, car.status.value] := by
    rw [hread, splitN_carToStr car hc]
  have hwr : writeRecord s.carsFile cp (formatRecord (joinBar
      ([car.vin, car.model, car.price, car.dateStart,
        car.status.value].set 0 newVin))) =
      encodeFile (slots.set cp (carToStr { car with vin := newVin })) := by
    rw [show ([car.vin, car.model, car.price, car.dateStart,
        car.status.value].set 0 newVin) =
      [newVin, car.model, car.price, car.dateStart, car.status.value] from rfl]
    rw [← carToStr_withVin, hcf]
    exact writeRecord_encodeFile_set _ _ _ hok hcp (length_carToStr _ hnew)
  have hnotmem : ∀ e ∈ loadIndex s.carsIndexFile,
      ¬((fun e => decide (e.1 = newVin)) e = true) := by
    intro e he
    have he' : e ∈ s.carsIndexFile := ((List.perm_insertionSort _ _).mem_iff).mp he
    exact List.filter_eq_nil_iff.mp hfresh e he'
  have hsetlist : (loadIndex s.carsIndexFile).set i (newVin, cp) =
      (loadIndex s.carsIndexFile).take i ++ (newVin, cp) ::
        (loadIndex s.carsIndexFile).drop (i + 1) :=
    List.set_eq_take_cons_drop _ hilen
  have hfiltset : ((loadIndex s.carsIndexFile).set i (newVin, cp)).filter
      (fun e => decide (e.1 = newVin)) = [(newVin, cp)] := by
    rw [hsetlist, List.filter_append, List.filter_cons_of_pos (by simp),
      List.filter_eq_nil_iff.mpr (fun e he => hnotmem e (List.mem_of_mem_take he)),
      List.filter_eq_nil_iff.mpr (fun e he => hnotmem e (List.mem_of_mem_drop he)),
      List.nil_append]
  have hget := getCarByVin_found
    { s with
      carsFile := encodeFile (slots.set cp (carToStr { car with vin := newVin })),
      carsIndexFile := sortIndex ((loadIndex s.carsIndexFile).set i (newVin, cp)) }
    { car with vin := newVin } newVin
    (slots.set cp (carToStr { car with vin := newVin })) cp
    rfl rfl (hok.set (length_carToStr _ hnew)) (by rw [List.length_set]; exact hcp)
    (getD_set_self _ _ _ _ hcp) hnew
    (by
      show (sortIndex ((loadIndex s.carsIndexFile).set i (newVin, cp))).filter
        (fun e => decide (e.1 = newVin)) = [(newVin, cp)]
      rw [filter_key_sortIndex]
      exact hfiltset)
  have hupdate : updateVin s car.vin newVin =
      ({ s with
        carsFile := encodeFile (slots.set cp (carToStr { car with vin := newVin })),
        carsIndexFile := sortIndex ((loadIndex s.carsIndexFile).set i (newVin, cp)) },
       .ok { car with vin := newVin }) := by
    simp only [updateVin, hi, hgetD, hfields]
    rw [if_pos (show ([car.vin, car.model, car.price, car.dateStart,
      car.status.value] : List Str).length = 5 from rfl)]
    simp only [hwr, hget]
  have hmemF : (car.vin, cq) ∈ (loadIndex s.carsIndexFile).filter
      (fun e => decide (e.1 = car.vin)) := by
    rw [filter_key_loadIndex, hcidx]
    simp
  have hmemL : (car.vin, cq) ∈ loadIndex s.carsIndexFile :=
    List.mem_of_mem_filter hmemF
  have hmemq : (car.vin, cq) ∈ (loadIndex s.carsIndexFile).set i (newVin, cp) := by
    have hL : (loadIndex s.carsIndexFile).take i ++
        (loadIndex s.carsIndexFile).getD i ([], 0) ::
        (loadIndex s.carsIndexFile).drop (i + 1) = loadIndex s.carsIndexFile := by
      rw [List.getD_eq_getElem?_getD, List.getElem?_eq_getElem hilen, Option.getD_some,
        ← List.drop_eq_getElem_cons hilen, List.take_append_drop]
    rw [← hL, hgetD] at hmemL
    rw [hsetlist]
    rcases List.mem_append.mp hmemL with h | h
    · exact List.mem_append_left _ h
    · rcases List.mem_cons.mp h with h | h
      · exact absurd h (by simp [hcpq])
      · exact List.mem_append_right _ (List.mem_cons_of_mem _ h)
  refine ⟨?_, ?_, ?_, ?_⟩
  · rw [hupdate]
  · rw [hupdate]
    show (newVin, cp) ∈ sortIndex ((loadIndex s.carsIndexFile).set i (newVin, cp))
    rw [sortIndex, List.mem_insertionSort, hsetlist]
    exact List.mem_append_right _ (List.mem_cons_self _ _)
  · rw [hupdate]
    show (car.vin, cq) ∈ sortIndex ((loadIndex s.carsIndexFile).set i (newVin, cp))
    rw [sortIndex, List.mem_insertionSort]
    exact hmemq
  · rw [hupdate]

/-- C10: adding two cars with the same vin keeps both index entries (the
second at the next slot); because index load is a stable sort and every
lookup scans for the first match, `_get_car_by_vin` decodes the
first-inserted car, `_update_car_status` rewrites only the first-inserted
car's slot, and `update_vin` rewrites the first-inserted car's record with
the new vin and renames the first-inserted entry (the duplicate's slot and
its index entry are untouched in every case). -/
theorem C10_duplicate_vin_first_wins (s : CarService) (c1 c2 : Car) (newVin : Str)
    (slots : List Str)
    (hcf : s.carsFile = encodeFile slots) (hok : SlotsOk slots)
    (h1 : CarOk c1) (h2 : CarOk c2) (hv2 : c2.vin = c1.vin)
    (hfresh : s.carsIndexFile.filter (fun e => decide (e.1 = c1.vin)) = [])
    (hnewOk : CarOk { c1 with vin := newVin }) (hvnew : ¬(newVin = c1.vin))
    (hfreshNew : s.carsIndexFile.filter (fun e => decide (e.1 = newVin)) = []) :
    (c1.vin, slots.length) ∈ (addCar (addCar s c1) c2).carsIndexFile ∧
      (c1.vin, slots.length + 1) ∈ (addCar (addCar s c1) c2).carsIndexFile ∧
      getCarByVin (addCar (addCar s c1) c2) c1.vin = .ok c1 ∧
      updateCarStatus (addCar (addCar s c1) c2) c1.vin CarStatus.sold.value =
        { addCar (addCar s c1) c2 with
          carsFile := encodeFile (((slots ++ [carToStr c1]) ++ [carToStr c2]).set
            slots.length (carToStr { c1 with status := CarStatus.sold })) } ∧
      (updateVin (addCar (addCar s c1) c2) c1.vin newVin).1.carsFile =
        encodeFile (((slots ++ [carToStr c1]) ++ [carToStr c2]).set
          slots.length (carToStr { c1 with vin := newVin })) ∧
      (newVin, slots.length) ∈
        (updateVin (addCar (addCar s c1) c2) c1.vin newVin).1.carsIndexFile ∧
      (c1.vin, slots.length + 1) ∈
        (updateVin (addCar (addCar s c1) c2) c1.vin newVin).1.carsIndexFile ∧
      (updateVin (addCar (addCar s c1) c2) c1.vin newVin).2 =
        .ok { c1 with vin := newVin } := by
  have hlen1 : (carToStr c1).length ≤ RECORD_SIZE := length_carToStr c1 h1
  have hlen2 : (carToStr c2).length ≤ RECORD_SIZE := length_carToStr c2 h2
  have hok1 : SlotsOk (slots ++ [carToStr c1]) := hok.append (SlotsOk.single hlen1)
  have hok2 : SlotsOk ((slots ++ [carToStr c1]) ++ [carToStr c2]) :=
    hok1.append (SlotsOk.single hlen2)
  have hpos1 : findFreePosition s.carsFile = slots.length := by
    rw [hcf, findFreePosition_encodeFile slots hok]
  have hwr1 : writeRecord s.carsFile slots.length (formatRecord (carToStr c1)) =
      encodeFile (slots ++ [carToStr c1]) := by
    rw [hcf]
    exact writeRecord_encodeFile_append slots (carToStr c1) hok
  have hlenapp : (slots ++ [carToStr c1]).length = slots.length + 1 := by simp
  have hpos2 : findFreePosition (encodeFile (slots ++ [carToStr c1])) =
      slots.length + 1 := by
    rw [findFreePosition_encodeFile _ hok1, hlenapp]
  have hwr2 : writeRecord (encodeFile (slots ++ [carToStr c1]))
      (slots.length + 1) (formatRecord (carToStr c2)) =
      encodeFile ((slots ++ [carToStr c1]) ++ [carToStr c2]) := by
    rw [← hlenapp]
    exact writeRecord_encodeFile_append _ (carToStr c2) hok1
  have hadd : addCar (addCar s c1) c2 =
      { s with
        carsFile := encodeFile ((slots ++ [carToStr c1]) ++ [carToStr c2]),
        carsIndexFile := sortIndex (loadIndex (sortIndex (loadIndex s.carsIndexFile ++
          [(c1.vin, slots.length)])) ++ [(c1.vin, slots.length + 1)]) } := by
    simp only [addCar, hv2, hpos1, hwr1, hpos2, hwr2]
  have hfilt2 : (sortIndex (loadIndex (sortIndex (loadIndex s.carsIndexFile ++
      [(c1.vin, slots.length)])) ++ [(c1.vin, slots.length + 1)])).filter
      (fun e => decide (e.1 = c1.vin)) =
      [(c1.vin, slots.length), (c1.vin, slots.length + 1)] := by
    rw [filter_key_sortIndex, List.filter_append, filter_key_loadIndex,
      filter_key_sortIndex, List.filter_append, filter_key_loadIndex, hfresh,
      List.nil_append, List.filter_cons_of_pos (by simp), List.filter_nil,
      List.filter_cons_of_pos (by simp), List.filter_nil]
    rfl
  have hfind : (loadIndex (sortIndex (loadIndex (sortIndex (loadIndex s.carsIndexFile ++
      [(c1.vin, slots.length)])) ++ [(c1.vin, slots.length + 1)]))).find?
      (fun e => decide (e.1 = c1.vin)) = some (c1.vin, slots.length) := by
    rw [find?_key_loadIndex_filter, hfilt2]
    rfl
  have hn : slots.length < ((slots ++ [carToStr c1]) ++ [carToStr c2]).length := by
    simp
  have hgetslot : ((slots ++ [carToStr c1]) ++ [carToStr c2]).getD slots.length [] =
      carToStr c1 := by
    rw [getD_append_of_lt _ _ _ (by simp), getD_append_length]
  have hread : readRecord (encodeFile ((slots ++ [carToStr c1]) ++ [carToStr c2]))
      slots.length = carToStr c1 := by
    rw [readRecord_encodeFile _ _ hok2 hn, hgetslot, rstrip_carToStr c1 h1]
  have hmem_sort : ∀ (e : IndexEntry) (l : List IndexEntry), e ∈ l → e ∈ sortIndex l :=
    fun e l h => (List.mem_insertionSort _).mpr h
  have hvne : ¬(c1.vin = newVin) := fun hh => hvnew hh.symm
  have hfiltnewX : (sortIndex (loadIndex (sortIndex (loadIndex s.carsIndexFile ++
      [(c1.vin, slots.length)])) ++ [(c1.vin, slots.length + 1)])).filter
      (fun e => decide (e.1 = newVin)) = [] := by
    rw [filter_key_sortIndex, List.filter_append, filter_key_loadIndex,
      filter_key_sortIndex, List.filter_append, filter_key_loadIndex, hfreshNew,
      List.nil_append, List.filter_cons_of_neg (by simp [hvne]), List.filter_nil,
      List.filter_cons_of_neg (by simp [hvne]), List.filter_nil]
    rfl
  have hren := updateVin_first_of_two
    { s with
      carsFile := encodeFile ((slots ++ [carToStr c1]) ++ [carToStr c2]),
      carsIndexFile := sortIndex (loadIndex (sortIndex (loadIndex s.carsIndexFile ++
        [(c1.vin, slots.length)])) ++ [(c1.vin, slots.length + 1)]) }
    c1 newVin ((slots ++ [carToStr c1]) ++ [carToStr c2]) slots.length (slots.length + 1)
    rfl hok2 h1 hn hgetslot hfilt2 hnewOk (by omega) hfiltnewX
  refine ⟨?_, ?_, ?_, ?_, ?_, ?_, ?_, ?_⟩
  · rw [hadd]
    refine hmem_sort _ _ (List.mem_append_left _ (hmem_sort _ _ (hmem_sort _ _ ?_)))
    exact List.mem_append_right _ (List.mem_cons_self _ _)
  · rw [hadd]
    exact hmem_sort _ _ (List.mem_append_right _ (List.mem_cons_self _ _))
  · rw [hadd]
    have hfcv : findCarByVin
        { s with
          carsFile := encodeFile ((slots ++ [carToStr c1]) ++ [carToStr c2]),
          carsIndexFile := sortIndex (loadIndex (sortIndex (loadIndex s.carsIndexFile ++
            [(c1.vin, slots.length)])) ++ [(c1.vin, slots.length + 1)]) } c1.vin =
        some (carToStr c1) := by
      rw [findCarByVin]
      show ((loadIndex (sortIndex (loadIndex (sortIndex (loadIndex s.carsIndexFile ++
        [(c1.vin, slots.length)])) ++ [(c1.vin, slots.length + 1)]))).find?
        (fun e => decide (e.1 = c1.vin))).map _ = _
      rw [hfind]
      exact congrArg some hread
    simp only [getCarByVin, hfcv, carOfFields_carToStr c1 h1]
  · rw [hadd]
    have hfields : splitN '|' 4 (readRecord (encodeFile ((slots ++ [carToStr c1]) ++
        [carToStr c2])) slots.length) =
        [c1.vin, c1.model, c1.price, c1.dateStart, c1.status.value] := by
      rw [hread, splitN_carToStr c1 h1]
    simp only [updateCarStatus, hfind, hfields]
    rw [if_pos (show ([c1.vin, c1.model, c1.price, c1.dateStart,
      c1.status.value] : List Str).length = 5 from rfl)]
    rw [show ([c1.vin, c1.model, c1.price, c1.dateStart, c1.status.value].set 4
      CarStatus.sold.value) = [c1.vin, c1.model, c1.price, c1.dateStart,
      CarStatus.sold.value] from rfl]
    rw [← carToStr_withStatus,
      writeRecord_encodeFile_set _ _ _ hok2 hn (length_carToStr _ (h1.withStatus _))]
  · rw [hadd]
    exact hren.1
  · rw [hadd]
    exact hren.2.1
  · rw [hadd]
    exact hren.2.2.1
  · rw [hadd]
    exact hren.2.2.2

/-- C10 (witness): two cars with vin `D1` added after one unrelated car; the
lookup returns the first-inserted duplicate, and renaming `D1` to `Z9`
renames the first-inserted duplicate. -/
theorem C10_witness :
    getCarByVin
      (addCar
        (addCar
          { initialService with
            carsFile := encodeFile [carToStr ⟨lit "A1", lit "M0", lit "7", lit "2024-01-01", .available⟩],
            carsIndexFile := [(lit "A1", 0)] }
          ⟨lit "D1", lit "M1", lit "10", lit "2024-01-02", .available⟩)
        ⟨lit "D1", lit "M2", lit "20", lit "2024-01-03", .reserved⟩)
      (lit "D1") =
      .ok ⟨lit "D1", lit "M1", lit "10", lit "2024-01-02", .available⟩ ∧
    (updateVin
      (addCar
        (addCar
          { initialService with
            carsFile := encodeFile [carToStr ⟨lit "A1", lit "M0", lit "7", lit "2024-01-01", .available⟩],
            carsIndexFile := [(lit "A1", 0)] }
          ⟨lit "D1", lit "M1", lit "10", lit "2024-01-02", .available⟩)
        ⟨lit "D1", lit "M2", lit "20", lit "2024-01-03", .reserved⟩)
      (lit "D1") (lit "Z9")).2 =
      .ok ⟨lit "Z9", lit "M1", lit "10", lit "2024-01-02", .available⟩ := by
  have h := C10_duplicate_vin_first_wins
    { initialService with
      carsFile := encodeFile [carToStr ⟨lit "A1", lit "M0", lit "7", lit "2024-01-01", .available⟩],
      carsIndexFile := [(lit "A1", 0)] }
    ⟨lit "D1", lit "M1", lit "10", lit "2024-01-02", .available⟩
    ⟨lit "D1", lit "M2", lit "20", lit "2024-01-03", .reserved⟩
    (lit "Z9")
    [carToStr ⟨lit "A1", lit "M0", lit "7", lit "2024-01-01", .available⟩]
    rfl (by decide) (by decide) (by decide) rfl (by decide) (by decide) (by decide) (by decide)
  exact ⟨h.2.2.1, h.2.2.2.2.2.2.2⟩

/-! ### C7: `get_cars` is the status filter in physical order -/

theorem pstrip_ne_nil (x : Str) (c0 : Char) (hmem : c0 ∈ x)
    (hc0 : isPySpace c0 = false) : pstrip x ≠ [] := by
  intro hnil
  have hall : ∀ a ∈ rstrip x, isPySpace a = true :=
    List.dropWhile_eq_nil_iff.mp hnil
  have hx : x = rstrip x ++ (List.takeWhile isPySpace x.reverse).reverse := by
    have h1 : List.takeWhile isPySpace x.reverse ++
        List.dropWhile isPySpace x.reverse = x.reverse :=
      List.takeWhile_append_dropWhile _ _
    have h2 := congrArg List.reverse h1
    rw [List.reverse_append, List.reverse_reverse] at h2
    exact h2.symm
  rw [hx] at hmem
  rcases List.mem_append.mp hmem with h | h
  · have := hall c0 h
    rw [hc0] at this
    exact Bool.noConfusion this
  · have := List.mem_takeWhile_imp (List.mem_reverse.mp h)
    rw [hc0] at this
    exact Bool.noConfusion this

theorem bar_mem_carToStr (car : Car) : '|' ∈ carToStr car := by
  rw [carToStr, joinBar_cons₂]
  exact List.mem_append_right _ (List.mem_cons_self _ _)

theorem statusValue_inj (a b : CarStatus) (h : a.value = b.value) : a = b := by
  cases a <;> cases b <;> revert h <;> decide

/-- The sales-file scan of `get_cars` over a slot-structured cars file of
serialized cars keeps exactly the cars whose status equals the filter, in
file order. -/
theorem scanCars (cars : List Car) (st : CarStatus) (hok : ∀ c ∈ cars, CarOk c) :
    (List.range cars.length).filterMap (fun pos =>
      let record := readRecord (encodeFile (cars.map carToStr)) pos
      if pstrip record ≠ [] then
        let fields := splitN '|' 4 record
        if fields.length = 5 ∧ pstrip (fields.getD 4 []) = st.value then
          carOfFields fields
        else none
      else none) = cars.filter (fun c => decide (c.status = st)) := by
  induction cars using List.reverseRecOn with
  | nil => rfl
  | append_singleton init c ih =>
    have hokc : CarOk c := hok c (by simp)
    have hokinit : ∀ x ∈ init, CarOk x := fun x hx => hok x (by simp [hx])
    have hsokbig : SlotsOk ((init ++ [c]).map carToStr) := by
      intro p hp
      obtain ⟨x, hx, rfl⟩ := List.mem_map.mp hp
      exact length_carToStr x (hok x hx)
    have hsokinit : SlotsOk (init.map carToStr) := by
      intro p hp
      obtain ⟨x, hx, rfl⟩ := List.mem_map.mp hp
      exact length_carToStr x (hokinit x hx)
    have hlen : (init ++ [c]).length = init.length + 1 := by simp
    rw [hlen, List.range_succ, List.filterMap_append]
    have hcongr : ∀ pos ∈ List.range init.length,
        readRecord (encodeFile ((init ++ [c]).map carToStr)) pos =
          readRecord (encodeFile (init.map carToStr)) pos := by
      intro pos hpos
      have hpos' : pos < init.length := List.mem_range.mp hpos
      rw [readRecord_encodeFile _ _ hsokbig (by simp; omega),
        readRecord_encodeFile _ _ hsokinit (by simp [hpos'])]
      rw [List.map_append]
      rw [getD_append_of_lt _ _ _ (by simp [hpos']) _]
    have hpieceA : (List.range init.length).filterMap (fun pos =>
        let record := readRecord (encodeFile ((init ++ [c]).map carToStr)) pos
        if pstrip record ≠ [] then
          let fields := splitN '|' 4 record
          if fields.length = 5 ∧ pstrip (fields.getD 4 []) = st.value then
            carOfFields fields
          else none
        else none) =
        (List.range init.length).filterMap (fun pos =>
        let record := readRecord (encodeFile (init.map carToStr)) pos
        if pstrip record ≠ [] then
          let fields := splitN '|' 4 record
          if fields.length = 5 ∧ pstrip (fields.getD 4 []) = st.value then
            carOfFields fields
          else none
        else none) :=
      List.filterMap_congr (fun pos hpos => by simp only [hcongr pos hpos])
    rw [hpieceA, ih hokinit]
    have hreadc : readRecord (encodeFile ((init ++ [c]).map carToStr)) init.length =
        carToStr c := by
      rw [readRecord_encodeFile _ _ hsokbig (by simp), List.map_append,
        show List.map carToStr [c] = [carToStr c] from rfl]
      have hl : init.length = (init.map carToStr).length := (List.length_map _ _).symm
      rw [hl, getD_append_length, rstrip_carToStr c hokc]
    have hne_str : pstrip (carToStr c) ≠ [] :=
      pstrip_ne_nil _ '|' (bar_mem_carToStr c) (by decide)
    have hsingle : List.filterMap (fun pos =>
        let record := readRecord (encodeFile ((init ++ [c]).map carToStr)) pos
        if pstrip record ≠ [] then
          let fields := splitN '|' 4 record
          if fields.length = 5 ∧ pstrip (fields.getD 4 []) = st.value then
            carOfFields fields
          else none
        else none) [init.length] =
        List.filter (fun x => decide (x.status = st)) [c] := by
      simp only [List.filterMap_cons, List.filterMap_nil, hreadc]
      rw [if_pos hne_str, splitN_carToStr c hokc]
      rw [show (([c.vin, c.model, c.price, c.dateStart,
        c.status.value] : List Str).getD 4 []) = c.status.value from rfl]
      rw [(statusValue_ok c.status).1.pstrip_eq]
      have hdecode : carOfFields [c.vin, c.model, c.price, c.dateStart,
          c.status.value] = some c := by
        rw [← splitN_carToStr c hokc]
        exact carOfFields_carToStr c hokc
      by_cases hst : c.status = st
      · rw [if_pos ⟨rfl, by rw [hst]⟩, hdecode]
        simp [List.filter_cons, hst]
      · rw [if_neg (fun hand => hst (statusValue_inj _ _ hand.2))]
        simp [List.filter_cons, hst]
    rw [hsingle, ← List.filter_append]

/-- C7: `get_cars` returns exactly the cars whose stored status field decodes
equal to the requested status, in ascending physical slot order, by a full
sequential scan of the cars file. -/
theorem C7_get_cars_status_filter (s : CarService) (cars : List Car)
    (st : CarStatus) (hok : ∀ c ∈ cars, CarOk c)
    (hcf : s.carsFile = encodeFile (cars.map carToStr)) :
    getCars s st = cars.filter (fun c => decide (c.status = st)) := by
  by_cases hnil : cars = []
  · subst hnil
    rw [getCars, hcf]
    rfl
  · have hsok : SlotsOk (cars.map carToStr) := by
      intro p hp
      obtain ⟨x, hx, rfl⟩ := List.mem_map.mp hp
      exact length_carToStr x (hok x hx)
    have hlenfile : s.carsFile.length = RECORD_SIZE_WITH_NL * cars.length := by
      rw [hcf, length_encodeFile _ hsok, List.length_map]
    have hne : ¬(s.carsFile.length = 0) := by
      rw [hlenfile]
      have : 0 < cars.length := List.length_pos.mpr hnil
      simp only [RECORD_SIZE_WITH_NL]
      omega
    have htot : s.carsFile.length / RECORD_SIZE_WITH_NL = cars.length := by
      rw [hlenfile]
      exact Nat.mul_div_cancel_left _ (by norm_num [RECORD_SIZE_WITH_NL])
    rw [getCars, if_neg hne, htot, hcf]
    exact scanCars cars st hok

/-- C7 (witness): three cars, two available and one sold; the available filter
returns the two available cars in slot order. -/
theorem C7_witness :
    getCars
      { initialService with
        carsFile := encodeFile (List.map carToStr
          [⟨lit "V1", lit "M1", lit "10", lit "2024-01-01", .available⟩,
           ⟨lit "V2", lit "M1", lit "20", lit "2024-01-02", .sold⟩,
           ⟨lit "V3", lit "M2", lit "30", lit "2024-01-03", .available⟩]) }
      .available =
      [⟨lit "V1", lit "M1", lit "10", lit "2024-01-01", .available⟩,
       ⟨lit "V3", lit "M2", lit "30", lit "2024-01-03", .available⟩] :=
  (C7_get_cars_status_filter
    { initialService with
      carsFile := encodeFile (List.map carToStr
        [⟨lit "V1", lit "M1", lit "10", lit "2024-01-01", .available⟩,
         ⟨lit "V2", lit "M1", lit "20", lit "2024-01-02", .sold⟩,
         ⟨lit "V3", lit "M2", lit "30", lit "2024-01-03", .available⟩]) }
    [⟨lit "V1", lit "M1", lit "10", lit "2024-01-01", .available⟩,
     ⟨lit "V2", lit "M1", lit "20", lit "2024-01-02", .sold⟩,
     ⟨lit "V3", lit "M2", lit "30", lit "2024-01-03", .available⟩]
    .available (by decide) rfl).trans (by decide)

/-! ### C4: the persisted index invariant -/

theorem sortIndex_sorted (l : List IndexEntry) : IndexSorted (sortIndex l) := by
  have htot : IsTotal IndexEntry (fun a b => keyLe a b = true) :=
    ⟨fun a b => by
      have h := keyLe_total a b
      rcases Bool.or_eq_true_iff.mp h with h1 | h1
      exacts [Or.inl h1, Or.inr h1]⟩
  have htrans : IsTrans IndexEntry (fun a b => keyLe a b = true) :=
    ⟨fun a b c => keyLe_trans a b c⟩
  exact List.sorted_insertionSort _ l

theorem map_snd_sortIndex (l : List IndexEntry) :
    ((sortIndex l).map Prod.snd).Perm (l.map Prod.snd) :=
  (List.perm_insertionSort _ l).map Prod.snd

theorem map_snd_set_getD (l : List IndexEntry) (i : Nat) (k : Str)
    (h : i < l.length) :
    ((l.set i (k, (l.getD i ([], 0)).2)).map Prod.snd) = l.map Prod.snd := by
  rw [List.set_eq_take_cons_drop _ h]
  conv_rhs => rw [← List.take_append_drop i l, ← List.getElem_cons_drop l i h]
  rw [List.map_append, List.map_append, List.map_cons, List.map_cons]
  rw [List.getD_eq_getElem l ([], 0) h]

theorem initialService_inv : CarsRepoInv initialService := by
  refine ⟨⟨[], rfl, ?_⟩, List.Pairwise.nil, ?_⟩
  · intro p hp
    simp at hp
  · simp [initialService, findFreePosition, List.range_zero]

theorem addCar_inv (s : CarService) (car : Car) (hinv : CarsRepoInv s)
    (hlen : (carToStr car).length ≤ RECORD_SIZE) : CarsRepoInv (addCar s car) := by
  obtain ⟨⟨slots, hcf, hok⟩, hsorted, hperm⟩ := hinv
  have hpos : findFreePosition s.carsFile = slots.length := by
    rw [hcf, findFreePosition_encodeFile slots hok]
  have hok' : SlotsOk (slots ++ [carToStr car]) := hok.append (SlotsOk.single hlen)
  have hfile : (addCar s car).carsFile = encodeFile (slots ++ [carToStr car]) := by
    rw [addCar, hpos, hcf]
    exact writeRecord_encodeFile_append slots (carToStr car) hok
  have hidx : (addCar s car).carsIndexFile =
      sortIndex (loadIndex s.carsIndexFile ++ [(car.vin, slots.length)]) := by
    rw [addCar, hpos]
  refine ⟨⟨slots ++ [carToStr car], hfile, hok'⟩, ?_, ?_⟩
  · rw [hidx]
    exact sortIndex_sorted _
  · rw [hidx, hfile, findFreePosition_encodeFile _ hok']
    refine (map_snd_sortIndex _).trans ?_
    rw [List.map_append]
    have h1 : ((loadIndex s.carsIndexFile).map Prod.snd).Perm
        (List.range slots.length) := by
      refine ((map_snd_sortIndex _).trans ?_)
      rw [← hpos]
      exact hperm
    have h2 := h1.append_right ([(car.vin, slots.length)].map Prod.snd)
    refine h2.trans ?_
    rw [show List.map Prod.snd [(car.vin, slots.length)] = [slots.length] from rfl,
      ← List.range_succ, List.length_append, List.length_singleton]

theorem updateVin_inv (s : CarService) (vin newVin : Str) (hinv : CarsRepoInv s)
    (hwf : carOpOk s (.rename vin newVin)) :
    CarsRepoInv ((updateVin s vin newVin).1) := by
  obtain ⟨⟨slots, hcf, hok⟩, hsorted, hperm⟩ := hinv
  cases hidx : (loadIndex s.carsIndexFile).findIdx? (fun e => decide (e.1 = vin)) with
  | none =>
    simp only [updateVin, hidx]
    exact ⟨⟨slots, hcf, hok⟩, hsorted, hperm⟩
  | some i =>
    obtain ⟨hilen, hfind2⟩ := findIdx?_spec _ _ i (([], 0) : IndexEntry) hidx
    have hkey : ((loadIndex s.carsIndexFile).getD i ([], 0)).1 = vin := by
      have := List.find?_some hfind2
      simpa using this
    have hmem : (loadIndex s.carsIndexFile).getD i ([], 0) ∈
        loadIndex s.carsIndexFile := by
      rw [List.getD_eq_getElem _ _ hilen]
      exact List.getElem_mem hilen
    have hposlt : ((loadIndex s.carsIndexFile).getD i ([], 0)).2 < slots.length := by
      have hpm : ((loadIndex s.carsIndexFile).getD i ([], 0)).2 ∈
          (loadIndex s.carsIndexFile).map Prod.snd :=
        List.mem_map_of_mem Prod.snd hmem
      have hp2 : ((loadIndex s.carsIndexFile).map Prod.snd).Perm
          (List.range slots.length) := by
        refine (map_snd_sortIndex _).trans ?_
        rw [hcf, findFreePosition_encodeFile slots hok] at hperm
        exact hperm
      exact List.mem_range.mp (hp2.mem_iff.mp hpm)
    have hsortset : IndexSorted (sortIndex ((loadIndex s.carsIndexFile).set i
        (newVin, ((loadIndex s.carsIndexFile).getD i ([], 0)).2))) :=
      sortIndex_sorted _
    have hpermset : ((sortIndex ((loadIndex s.carsIndexFile).set i
        (newVin, ((loadIndex s.carsIndexFile).getD i ([], 0)).2))).map Prod.snd).Perm
        (List.range (findFreePosition s.carsFile)) := by
      refine (map_snd_sortIndex _).trans ?_
      rw [map_snd_set_getD _ _ _ hilen]
      exact (map_snd_sortIndex _).trans hperm
    simp only [updateVin, hidx]
    by_cases h5 : (splitN '|' 4 (readRecord s.carsFile
        ((loadIndex s.carsIndexFile).getD i ([], 0)).2)).length = 5
    · rw [if_pos h5]
      have hbound := hwf _ hmem hkey h5
      have hfile' : writeRecord s.carsFile
          ((loadIndex s.carsIndexFile).getD i ([], 0)).2
          (formatRecord (joinBar ((splitN '|' 4 (readRecord s.carsFile
            ((loadIndex s.carsIndexFile).getD i ([], 0)).2)).set 0 newVin))) =
          encodeFile (slots.set ((loadIndex s.carsIndexFile).getD i ([], 0)).2
            (joinBar ((splitN '|' 4 (readRecord s.carsFile
              ((loadIndex s.carsIndexFile).getD i ([], 0)).2)).set 0 newVin))) := by
        rw [hcf]
        rw [hcf] at hbound
        exact writeRecord_encodeFile_set _ _ _ hok hposlt hbound
      have hok2 : SlotsOk (slots.set ((loadIndex s.carsIndexFile).getD i ([], 0)).2
          (joinBar ((splitN '|' 4 (readRecord s.carsFile
            ((loadIndex s.carsIndexFile).getD i ([], 0)).2)).set 0 newVin))) := by
        refine hok.set ?_
        rw [hcf] at hbound
        rw [hcf]
        exact hbound
      refine ⟨⟨_, hfile', hok2⟩, hsortset, ?_⟩
      have hfp : findFreePosition (encodeFile (slots.set
          ((loadIndex s.carsIndexFile).getD i ([], 0)).2
          (joinBar ((splitN '|' 4 (readRecord s.carsFile
            ((loadIndex s.carsIndexFile).getD i ([], 0)).2)).set 0 newVin)))) =
          slots.length := by
        rw [findFreePosition_encodeFile _ hok2, List.length_set]
      rw [hfile', hfp]
      refine hpermset.trans ?_
      rw [hcf, findFreePosition_encodeFile slots hok]
    · rw [if_neg h5]
      exact ⟨⟨slots, hcf, hok⟩, hsortset, hpermset⟩

theorem carOps_inv (ops : List CarOp) (s : CarService) (hinv : CarsRepoInv s)
    (hwf : carOpsOk s ops) : CarsRepoInv (applyCarOps s ops) := by
  induction ops generalizing s with
  | nil => exact hinv
  | cons op rest ih =>
    obtain ⟨hop, hrest⟩ := hwf
    refine ih (applyCarOp s op) ?_ hrest
    cases op with
    | add car => exact addCar_inv s car hinv hop
    | rename vin newVin => exact updateVin_inv s vin newVin hinv hop

/-- C4: after any well-formed sequence of `add_car` / `update_vin` operations
starting from a fresh service, the persisted cars index file is sorted
ascending by key and holds exactly one entry per occupied slot of the cars
data file (its positions are a permutation of `0 .. slotCount - 1`). -/
theorem C4_index_file_invariant (ops : List CarOp)
    (hwf : carOpsOk initialService ops) :
    IndexSorted (applyCarOps initialService ops).carsIndexFile ∧
      (((applyCarOps initialService ops).carsIndexFile.map Prod.snd).Perm
        (List.range (findFreePosition (applyCarOps initialService ops).carsFile))) := by
  have h := carOps_inv ops initialService initialService_inv hwf
  exact ⟨h.2.1, h.2.2⟩

set_option maxRecDepth 100000 in
/-- C4 (witness): two adds (keys out of order) followed by a rename. -/
theorem C4_witness :
    IndexSorted (applyCarOps initialService
      [.add ⟨lit "B2", lit "M1", lit "10", lit "2024-01-01", .available⟩,
       .add ⟨lit "A1", lit "M2", lit "20", lit "2024-01-02", .available⟩,
       .rename (lit "B2") (lit "C3")]).carsIndexFile ∧
      (((applyCarOps initialService
        [.add ⟨lit "B2", lit "M1", lit "10", lit "2024-01-01", .available⟩,
         .add ⟨lit "A1", lit "M2", lit "20", lit "2024-01-02", .available⟩,
         .rename (lit "B2") (lit "C3")]).carsIndexFile.map Prod.snd).Perm
        (List.range (findFreePosition (applyCarOps initialService
          [.add ⟨lit "B2", lit "M1", lit "10", lit "2024-01-01", .available⟩,
           .add ⟨lit "A1", lit "M2", lit "20", lit "2024-01-02", .available⟩,
           .rename (lit "B2") (lit "C3")]).carsFile))) :=
  C4_index_file_invariant
    [.add ⟨lit "B2", lit "M1", lit "10", lit "2024-01-01", .available⟩,
     .add ⟨lit "A1", lit "M2", lit "20", lit "2024-01-02", .available⟩,
     .rename (lit "B2") (lit "C3")] (by decide)

/-! ### C8: the sales aggregation -/

theorem bump_countOf (counts : List (Str × Nat)) (k m : Str) :
    countOf (bump counts k) m = countOf counts m + (if k = m then 1 else 0) := by
  induction counts with
  | nil =>
    by_cases h : k = m
    · subst h
      simp [bump, countOf, dictLookup]
    · simp [bump, countOf, dictLookup, h]
  | cons e rest ih =>
    obtain ⟨k', n⟩ := e
    by_cases h1 : k' = k
    · rw [bump, if_pos h1]
      subst h1
      by_cases h2 : k' = m
      · subst h2
        simp [countOf, dictLookup]
      · simp [countOf, dictLookup, h2]
    · rw [bump, if_neg h1]
      by_cases h2 : k' = m
      · subst h2
        have hkm : ¬(k = k') := fun hh => h1 hh.symm
        simp [countOf, dictLookup, hkm]
      · have e1 : countOf ((k', n) :: bump rest k) m = countOf (bump rest k) m := by
          simp [countOf, dictLookup, List.find?_cons, h2]
        have e2 : countOf ((k', n) :: rest) m = countOf rest m := by
          simp [countOf, dictLookup, List.find?_cons, h2]
        rw [e1, e2, ih]

theorem saleScanStep_eq (s : CarService) (counts : List (Str × Nat)) (pos : Nat) :
    saleScanStep s counts pos =
      match saleResolvedModel s pos with
      | some k => bump counts k
      | none => counts := by
  rw [saleScanStep, saleResolvedModel]
  by_cases h1 : pstrip (readRecord s.salesFile pos) = []
  · rw [if_pos h1, if_pos h1]
  · rw [if_neg h1, if_neg h1]
    by_cases h2 : (splitN '|' 4 (readRecord s.salesFile pos)).length = 5 ∧
        pstrip ((splitN '|' 4 (readRecord s.salesFile pos)).getD 4 []) = lit "False"
    · rw [if_pos h2, if_pos h2]
      cases h3 : findCarByVin s
          (pstrip ((splitN '|' 4 (readRecord s.salesFile pos)).getD 1 [])) with
      | none => rfl
      | some carData =>
        dsimp only
        by_cases h4 : (splitN '|' 4 carData).length = 5
        · rw [if_pos h4, if_pos h4]
        · rw [if_neg h4, if_neg h4]
    · rw [if_neg h2, if_neg h2]

theorem foldl_scan_countOf (s : CarService) (m : Str) :
    ∀ (positions : List Nat) (counts0 : List (Str × Nat)),
    countOf (positions.foldl (saleScanStep s) counts0) m =
      countOf counts0 m +
        positions.countP (fun pos => decide (saleResolvedModel s pos = some m))
  | [], counts0 => by simp
  | pos :: rest, counts0 => by
    rw [List.foldl_cons, foldl_scan_countOf s m rest, saleScanStep_eq,
      List.countP_cons]
    cases h : saleResolvedModel s pos with
    | none => simp [h]
    | some k =>
      rw [bump_countOf]
      by_cases hk : k = m
      · subst hk
        simp [h]
        omega
      · have hne : ¬(some k = some m) := fun hh => hk (Option.some_inj.mp hh)
        simp [h, hk, hne]

theorem foldl_resolve_eq_filterMap (md : List (Str × (Str × Str))) :
    ∀ (l : List (Str × Nat)) (acc : List ModelSaleStats),
    l.foldl (fun res e =>
      match dictLookup md e.1 with
      | some nb => res ++ [⟨nb.1, nb.2, e.2⟩]
      | none => res) acc =
      acc ++ l.filterMap (fun e =>
        (dictLookup md e.1).map (fun nb => ⟨nb.1, nb.2, e.2⟩))
  | [], acc => by simp
  | e :: rest, acc => by
    rw [List.foldl_cons, foldl_resolve_eq_filterMap md rest, List.filterMap_cons]
    cases h : dictLookup md e.1 with
    | none => simp [h]
    | some nb => simp [h]

end Bibip

namespace Bibip

theorem scenario_sok : SlotsOk scenarioSaleSlots := by decide

theorem scenarioService_salesFile :
    scenarioService.salesFile = encodeFile scenarioSaleSlots := rfl

theorem scenarioService_carsFile :
    scenarioService.carsFile = encodeFile scenarioCarSlots := rfl

theorem scenarioService_modelsFile :
    scenarioService.modelsFile = encodeFile scenarioModelSlots := rfl

theorem scenario_cok : SlotsOk scenarioCarSlots := by decide

theorem scenario_mok : SlotsOk scenarioModelSlots := by decide

theorem scenario_read_sale (i : Nat) (hi : i < 5) :
    readRecord scenarioService.salesFile i = scenarioSaleSlots.getD i [] := by
  rw [scenarioService_salesFile,
    readRecord_encodeFile _ _ scenario_sok (by rw [show scenarioSaleSlots.length = 5 from rfl]; omega)]
  interval_cases i <;> decide

theorem scenario_read_car (i : Nat) (hi : i < 5) :
    readRecord scenarioService.carsFile i = scenarioCarSlots.getD i [] := by
  rw [scenarioService_carsFile,
    readRecord_encodeFile _ _ scenario_cok (by rw [show scenarioCarSlots.length = 5 from rfl]; omega)]
  interval_cases i <;> decide

theorem scenario_read_model (i : Nat) (hi : i < 2) :
    readRecord scenarioService.modelsFile i = scenarioModelSlots.getD i [] := by
  rw [scenarioService_modelsFile,
    readRecord_encodeFile _ _ scenario_mok (by rw [show scenarioModelSlots.length = 2 from rfl]; omega)]
  interval_cases i <;> decide

end Bibip

namespace Bibip

theorem scenario_find_car (v : Str) (car : Str) (i : Nat) (hi : i < 5)
    (hfind : (loadIndex scenarioService.carsIndexFile).find?
      (fun e => decide (e.1 = v)) = some (v, i))
    (hslot : scenarioCarSlots.getD i [] = car) :
    findCarByVin scenarioService v = some car := by
  rw [findCarByVin, hfind]
  exact congrArg some ((scenario_read_car i hi).trans hslot)

theorem scenario_srm0 : saleResolvedModel scenarioService 0 = some (lit "M1") := by
  rw [saleResolvedModel, scenario_read_sale 0 (by omega)]
  rw [if_neg (by decide), if_pos (by decide)]
  rw [show pstrip ((splitN '|' 4 (scenarioSaleSlots.getD 0 [])).getD 1 []) = lit "V1" from by decide]
  rw [scenario_find_car (lit "V1") (lit "V1|M1|100|2024-01-01|sold") 0 (by omega) (by decide) (by decide)]
  decide

end Bibip

namespace Bibip

theorem scenario_srm1 : saleResolvedModel scenarioService 1 = some (lit "M1") := by
  rw [saleResolvedModel, scenario_read_sale 1 (by omega)]
  rw [if_neg (by decide), if_pos (by decide)]
  rw [show pstrip ((splitN '|' 4 (scenarioSaleSlots.getD 1 [])).getD 1 []) = lit "V2" from by decide]
  rw [scenario_find_car (lit "V2") (lit "V2|M1|100|2024-01-02|sold") 1 (by omega) (by decide) (by decide)]
  decide

theorem scenario_srm2 : saleResolvedModel scenarioService 2 = some (lit "M1") := by
  rw [saleResolvedModel, scenario_read_sale 2 (by omega)]
  rw [if_neg (by decide), if_pos (by decide)]
  rw [show pstrip ((splitN '|' 4 (scenarioSaleSlots.getD 2 [])).getD 1 []) = lit "V3" from by decide]
  rw [scenario_find_car (lit "V3") (lit "V3|M1|100|2024-01-03|sold") 2 (by omega) (by decide) (by decide)]
  decide

theorem scenario_srm3 : saleResolvedModel scenarioService 3 = some (lit "M2") := by
  rw [saleResolvedModel, scenario_read_sale 3 (by omega)]
  rw [if_neg (by decide), if_pos (by decide)]
  rw [show pstrip ((splitN '|' 4 (scenarioSaleSlots.getD 3 [])).getD 1 []) = lit "V4" from by decide]
  rw [scenario_find_car (lit "V4") (lit "V4|M2|100|2024-01-04|sold") 3 (by omega) (by decide) (by decide)]
  decide

theorem scenario_srm4 : saleResolvedModel scenarioService 4 = none := by
  rw [saleResolvedModel, scenario_read_sale 4 (by omega)]
  rw [if_neg (by decide), if_neg (by decide)]

theorem scenario_topModels :
    topModelsBySales scenarioService =
      [⟨lit "ModelA", lit "BrandA", 3⟩, ⟨lit "ModelB", lit "BrandB", 1⟩] := by
  have h0 : ¬(scenarioService.salesFile.length = 0) := by
    rw [scenarioService_salesFile, length_encodeFile _ scenario_sok]
    decide
  have htot : scenarioService.salesFile.length / RECORD_SIZE_WITH_NL = 5 := by
    rw [scenarioService_salesFile, length_encodeFile _ scenario_sok]
    decide
  have hscan : ([0, 1, 2, 3, 4] : List Nat).foldl (saleScanStep scenarioService) [] =
      [(lit "M1", 3), (lit "M2", 1)] := by
    simp only [List.foldl_cons, List.foldl_nil, saleScanStep_eq, scenario_srm0,
      scenario_srm1, scenario_srm2, scenario_srm3, scenario_srm4]
    decide
  have hmd : modelsData scenarioService =
      [(lit "M1", (lit "ModelA", lit "BrandA")), (lit "M2", (lit "ModelB", lit "BrandB"))] := by
    rw [modelsData]
    rw [show loadIndex scenarioService.modelsIndexFile = [(lit "M1", 0), (lit "M2", 1)] from by decide]
    simp only [List.foldl_cons, List.foldl_nil]
    rw [scenario_read_model 0 (by omega), scenario_read_model 1 (by omega)]
    decide
  simp only [topModelsBySales]
  rw [if_neg h0, htot, show List.range 5 = [0, 1, 2, 3, 4] from by decide, hscan, hmd]
  decide

end Bibip

namespace Bibip

/-- **C8.** `top_models_by_sales` counts one per sale record with
`deleted = False` whose car vin resolves through the car index (the per-model
count of the scan equals the number of slots whose sale resolves to that
model), returns at most 3 entries, ordered by sales count descending; on the
scenario of three active sales of model A, one of model B and one reverted
sale of model A it reports A with 3 and B with 1. -/
theorem C8_top_models_by_sales :
    (∀ s : CarService, (topModelsBySales s).length ≤ 3) ∧
    (∀ s : CarService,
      (topModelsBySales s).Pairwise (fun a b => b.salesNumber ≤ a.salesNumber)) ∧
    (∀ (s : CarService) (m : Str),
      countOf ((List.range (s.salesFile.length / RECORD_SIZE_WITH_NL)).foldl
          (saleScanStep s) []) m =
        (List.range (s.salesFile.length / RECORD_SIZE_WITH_NL)).countP
          (fun pos => decide (saleResolvedModel s pos = some m))) ∧
    topModelsBySales scenarioService =
      [⟨lit "ModelA", lit "BrandA", 3⟩, ⟨lit "ModelB", lit "BrandB", 1⟩] := by
  refine ⟨?_, ?_, ?_, scenario_topModels⟩
  · intro s
    simp only [topModelsBySales]
    by_cases h : s.salesFile.length = 0
    · rw [if_pos h]
      simp
    · rw [if_neg h, foldl_resolve_eq_filterMap, List.nil_append]
      exact le_trans (List.length_filterMap_le _ _) (List.length_take_le _ _)
  · intro s
    simp only [topModelsBySales]
    by_cases h : s.salesFile.length = 0
    · rw [if_pos h]
      exact List.Pairwise.nil
    · rw [if_neg h, foldl_resolve_eq_filterMap, List.nil_append,
        List.pairwise_filterMap]
      have htot : IsTotal (Str × Nat) (fun a b => countDescLe a b = true) :=
        ⟨fun a b => by
          have hh := countDescLe_total a b
          rcases Bool.or_eq_true_iff.mp hh with h1 | h1
          exacts [Or.inl h1, Or.inr h1]⟩
      have htrans : IsTrans (Str × Nat) (fun a b => countDescLe a b = true) :=
        ⟨fun a b c => countDescLe_trans a b c⟩
      have hsorted : List.Pairwise (fun a b => countDescLe a b = true)
          ((((List.range (s.salesFile.length / RECORD_SIZE_WITH_NL)).foldl
              (saleScanStep s) []).insertionSort
            (fun a b => countDescLe a b = true)).take 3) :=
        List.Pairwise.sublist (List.take_sublist _ _) (List.sorted_insertionSort _ _)
      refine hsorted.imp ?_
      intro a b hab x hx y hy
      rw [Option.mem_def, Option.map_eq_some'] at hx hy
      obtain ⟨nb, -, rfl⟩ := hx
      obtain ⟨nb', -, rfl⟩ := hy
      simpa [countDescLe] using hab
  · intro s m
    have h0 : countOf ([] : List (Str × Nat)) m = 0 := rfl
    rw [foldl_scan_countOf, h0, Nat.zero_add]

end Bibip
